import Mathlib

/-!
# Verification of `pyaraucaria/coordinates.py`

A shallow embedding of the sexagesimal/decimal coordinate conversion engine.
Python floats are modelled as exact rationals (plus `inf`/`-inf`/`nan`),
Python strings as `String`/`List Char`.  The regular expression
`(?P<sign>[+\-])?(?P<A>\d\d?)[ :\-hH](?P<B>\d\d?)[ :\-mM](?P<C>\d\d?(?:\.\d*)?)`
is embedded as a recursive-descent matcher with the same greedy/backtracking
behaviour, anchored at the start of the input and ignoring trailing content.
-/

namespace Pyaraucaria

/-! ### Digits and decimal rendering -/

/-- `c` is an ASCII digit `0`-`9`. -/
def isDig (c : Char) : Bool := 48 ≤ c.toNat && c.toNat ≤ 57

/-- Numeric value of an ASCII digit. -/
def digVal (c : Char) : Nat := c.toNat - 48

/-- The ASCII digit for `n ∈ [0, 9]`. -/
def digitChar : Nat → Char
  | 0 => '0'
  | 1 => '1'
  | 2 => '2'
  | 3 => '3'
  | 4 => '4'
  | 5 => '5'
  | 6 => '6'
  | 7 => '7'
  | 8 => '8'
  | _ => '9'

/-- Fuelled decimal rendering of a natural number (most significant digit first). -/
def natDigitsAux : Nat → Nat → List Char
  | 0, _ => []
  | f + 1, n => if n < 10 then [digitChar n] else natDigitsAux f (n / 10) ++ [digitChar (n % 10)]

/-- Decimal rendering of a natural number, as Python `'{:d}'.format`. -/
def natDigits (n : Nat) : List Char := natDigitsAux (n + 1) n

/-- Left-pad a list with `c` to length `w` (Python zero padding). -/
def leftPad (w : Nat) (c : Char) (l : List Char) : List Char :=
  List.replicate (w - l.length) c ++ l

/-! ### Python numeric primitives -/

/-- Python `int()` applied to a real value: truncation toward zero. -/
def pyInt (q : ℚ) : Int := if 0 ≤ q then ⌊q⌋ else -⌊-q⌋

/-- Python `%` on reals (divisor positive at every call site):
`a % b = a - b * ⌊a / b⌋`, always in `[0, b)` for `b > 0`. -/
def pyMod (a b : ℚ) : ℚ := a - b * ⌊a / b⌋

/-- Python `round(q, 6)`: round to 6 decimal places. -/
def round6 (q : ℚ) : ℚ := (round (q * 1000000) : ℚ) / 1000000

/-- Python `'{:02d}'.format(n)`: zero-pad to minimum width 2 (sign included in the width). -/
def pyFormat02d (n : Int) : List Char :=
  if n < 0 then '-' :: natDigits n.natAbs else leftPad 2 '0' (natDigits n.toNat)

/-- Python `'{:06.Pf}'.format(q)` where `P = prec`: fixed-point rendering with
exactly `prec` fractional digits (no decimal point when `prec = 0`), zero-padded
to minimum total width 6, the sign counted in the width.  The rounding of the
value to `prec` places is modelled as exact rational rounding. -/
def pyFormat06f (prec : Nat) (q : ℚ) : List Char :=
  let N : Int := round (q * 10 ^ prec)
  let A : Nat := N.natAbs
  let body : List Char :=
    natDigits (A / 10 ^ prec) ++
      (if prec = 0 then [] else '.' :: leftPad prec '0' (natDigits (A % 10 ^ prec)))
  if N < 0 then '-' :: leftPad 5 '0' body else leftPad 6 '0' body

/-! ### `format_sexagesimal` and its wrappers -/

/-- Embedding of `format_sexagesimal(deg, multiplier, sign, sep=':', precision=3)`.
Returns `none` for an empty separator (Python raises `IndexError` on `sep[0]`). -/
def format_sexagesimal (deg multiplier : ℚ) (sign : Bool) (sep : String) (precision : Nat) :
    Option String :=
  if sep.length = 0 then none
  else
    let sepc : List Char := if sep.length = 1 then sep.data ++ sep.data else sep.data
    let sig : Int := if 0 < deg then 1 else -1
    let h : ℚ := sig * multiplier * deg
    let m : ℚ := pyMod (h * 60) 60
    let s : ℚ := pyMod (m * 60) 60
    some ⟨(if sign then (if 0 < sig then ['+'] else ['-']) else []) ++
      pyFormat02d (pyInt h) ++ [sepc.getD 0 ' '] ++
      pyFormat02d (pyInt m) ++ [sepc.getD 1 ' '] ++
      pyFormat06f precision s ++
      (if sepc.length = 3 then [sepc.getD 2 ' '] else [])⟩

/-- Embedding of `to_hourangle_sexagesimal(deg, sep=':', sign=False, precision=3)`. -/
def to_hourangle_sexagesimal (deg : ℚ) (sep : String) (sign : Bool) (precision : Nat) :
    Option String :=
  format_sexagesimal deg (24 / 360) sign sep precision

/-- Embedding of `to_degminsec_sexagesimal(deg, sep=':', sign=True, precision=3)`. -/
def to_degminsec_sexagesimal (deg : ℚ) (sep : String) (sign : Bool) (precision : Nat) :
    Option String :=
  format_sexagesimal deg 1 sign sep precision

/-- Embedding of `ra_to_sexagesimal(deg, sep=':', precision=3)`. -/
def ra_to_sexagesimal (deg : ℚ) (sep : String) (precision : Nat) : Option String :=
  to_hourangle_sexagesimal deg sep false precision

/-- Embedding of `dec_to_sexagesimal(deg, sep=':', precision=3)`. -/
def dec_to_sexagesimal (deg : ℚ) (sep : String) (precision : Nat) : Option String :=
  to_degminsec_sexagesimal deg sep true precision

/-! ### Python `float(str)` -/

/-- The value of a Python `float`: a finite rational, an infinity, or `nan`. -/
inductive PyFloat : Type where
  | fin (q : ℚ)
  | inf
  | ninf
  | nan
deriving DecidableEq

/-- Python `round(x, 6)` on a float value; non-finite values are returned unchanged. -/
def pyRound6 : PyFloat → PyFloat
  | .fin q => .fin (round6 q)
  | x => x

/-- ASCII whitespace stripped by Python `float()`. -/
def isPyWs (c : Char) : Bool :=
  c = ' ' || c = '\t' || c = '\n' || c = '\r' || c = '\x0b' || c = '\x0c'

/-- Drop leading whitespace. -/
def skipWs : List Char → List Char
  | [] => []
  | c :: cs => if isPyWs c then skipWs cs else c :: cs

/-- Split off the longest run of leading ASCII digits. -/
def takeDigits : List Char → (List Char × List Char)
  | [] => ([], [])
  | c :: cs =>
    if isDig c then
      let p := takeDigits cs
      (c :: p.1, p.2)
    else ([], c :: cs)

/-- Value of a digit string read as a natural number. -/
def intVal (ds : List Char) : Nat := ds.foldl (fun a c => a * 10 + digVal c) 0

/-- Value of a digit string read as the fractional part after a decimal point. -/
def fracVal (ds : List Char) : ℚ := ds.foldr (fun c acc => ((digVal c : ℚ) + acc) / 10) 0

/-- Case-insensitive keyword match: consume `kw` from the front of `cs`. -/
def matchLower : List Char → List Char → Option (List Char)
  | [], cs => some cs
  | _ :: _, [] => none
  | k :: ks, c :: cs => if c.toLower = k then matchLower ks cs else none

/-- Unsigned numeric part of a Python float literal:
`digits [. digits] [e sign digits]` with at least one mantissa digit. -/
def pyFloatCore (cs : List Char) : Option (ℚ × List Char) :=
  let p1 := takeDigits cs
  let ip := p1.1
  let q2 : Option (List Char) × List Char :=
    match p1.2 with
    | c :: r => if c = '.' then (let p := takeDigits r; (some p.1, p.2)) else (none, c :: r)
    | [] => (none, [])
  let fp := q2.1
  let r2 := q2.2
  if ip.isEmpty && (fp.getD []).isEmpty then none
  else
    let mant : ℚ := (intVal ip : ℚ) + fracVal (fp.getD [])
    match r2 with
    | c :: r3 =>
      if c = 'e' || c = 'E' then
        let s4 : Bool × List Char :=
          match r3 with
          | c' :: r =>
            if c' = '+' then (false, r) else if c' = '-' then (true, r) else (false, c' :: r)
          | [] => (false, [])
        match takeDigits s4.2 with
        | ([], _) => none
        | (eds, r5) =>
          some ((if s4.1 then mant / 10 ^ intVal eds else mant * 10 ^ intVal eds), r5)
      else some (mant, c :: r3)
    | [] => some (mant, [])

/-- Embedding of the Python builtin `float(str)`: optional whitespace, optional
sign, then a numeric literal or one of the case-insensitive keywords
`inf`/`infinity`/`nan`, then optional whitespace.  (PEP 515 underscores are not
modelled; no call site and no claim depends on them.) -/
def pyFloatList (cs : List Char) : Option PyFloat :=
  let cs1 := skipWs cs
  let s2 : Bool × List Char :=
    match cs1 with
    | c :: r => if c = '+' then (false, r) else if c = '-' then (true, r) else (false, c :: r)
    | [] => (false, [])
  let neg := s2.1
  let cs2 := s2.2
  match matchLower ['i', 'n', 'f', 'i', 'n', 'i', 't', 'y'] cs2 with
  | some r => if (skipWs r).isEmpty then some (if neg then .ninf else .inf) else none
  | none =>
    match matchLower ['i', 'n', 'f'] cs2 with
    | some r => if (skipWs r).isEmpty then some (if neg then .ninf else .inf) else none
    | none =>
      match matchLower ['n', 'a', 'n'] cs2 with
      | some r => if (skipWs r).isEmpty then some .nan else none
      | none =>
        match pyFloatCore cs2 with
        | some (q, r) =>
            if (skipWs r).isEmpty then some (.fin (if neg then -q else q)) else none
        | none => none

/-! ### The sexagesimal matcher

Embedding of `_sexagesimal_parser.match`, i.e. of the anchored regular
expression `[+\-]? \d\d? [ :\-hH] \d\d? [ :\-mM] \d\d?(\.\d*)?` with the
regex engine's greedy, backtracking semantics: each `\d\d?` tries two digits
first and falls back to one digit if the remainder of the pattern cannot
match; the final `\d\d?(\.\d*)?` is purely greedy because nothing follows it. -/

/-- First field separator class `[ :\-hH]`. -/
def isSep1 (c : Char) : Bool := c = ' ' || c = ':' || c = '-' || c = 'h' || c = 'H'

/-- Second field separator class `[ :\-mM]`. -/
def isSep2 (c : Char) : Bool := c = ' ' || c = ':' || c = '-' || c = 'm' || c = 'M'

/-- Consume a single digit. -/
def pDig : List Char → Option (Nat × List Char)
  | [] => none
  | c :: cs => if isDig c then some (digVal c, cs) else none

/-- Consume exactly two digits. -/
def pNum2 (cs : List Char) : Option (Nat × List Char) :=
  match pDig cs with
  | none => none
  | some (d1, r1) =>
    match pDig r1 with
    | none => none
    | some (d2, r2) => some (d1 * 10 + d2, r2)

/-- Consume one character of a separator class. -/
def pSep (p : Char → Bool) : List Char → Option (List Char)
  | [] => none
  | c :: cs => if p c then some cs else none

/-- The optional fractional part `(\.\d*)?` after the integer part `ip` of the
final group: greedy, and nothing follows it. -/
def pCrest : Nat × List Char → Option (ℚ × List Char)
  | (ip, c :: r3) =>
    if c = '.' then
      let p := takeDigits r3
      some ((ip : ℚ) + fracVal p.1, p.2)
    else some ((ip : ℚ), c :: r3)
  | (ip, []) => some ((ip : ℚ), [])

/-- The trailing group `\d\d?(\.\d*)?`: greedy 1-or-2-digit integer part and
optional fractional part; nothing follows it, so no backtracking is needed. -/
def pC (cs : List Char) : Option (ℚ × List Char) :=
  match pDig cs with
  | none => none
  | some (d1, r1) =>
    pCrest
      (match pDig r1 with
       | some (d2, r2') => (d1 * 10 + d2, r2')
       | none => (d1, r1))

/-- After the `B` digits: second separator, then `C`. -/
def pBCwith (b : Nat) (r : List Char) : Option ((Nat × ℚ) × List Char) :=
  match pSep isSep2 r with
  | none => none
  | some r1 =>
    match pC r1 with
    | none => none
    | some (c, r2) => some ((b, c), r2)

/-- The suffix `\d\d? [ :\-mM] \d\d?(\.\d*)?`: `B` takes two digits if the rest
matches, otherwise one. -/
def pBC (cs : List Char) : Option ((Nat × ℚ) × List Char) :=
  (match pNum2 cs with
   | some (b, r) => pBCwith b r
   | none => none) <|>
  (match pDig cs with
   | some (b, r) => pBCwith b r
   | none => none)

/-- After the `A` digits: first separator, then `B`-`C`. -/
def pABCwith (a : Nat) (r : List Char) : Option ((Nat × Nat × ℚ) × List Char) :=
  match pSep isSep1 r with
  | none => none
  | some r1 =>
    match pBC r1 with
    | none => none
    | some ((b, c), r2) => some ((a, b, c), r2)

/-- The body `\d\d? [ :\-hH] \d\d? [ :\-mM] \d\d?(\.\d*)?`: `A` takes two
digits if the rest matches, otherwise one. -/
def pABC (cs : List Char) : Option ((Nat × Nat × ℚ) × List Char) :=
  (match pNum2 cs with
   | some (a, r) => pABCwith a r
   | none => none) <|>
  (match pDig cs with
   | some (a, r) => pABCwith a r
   | none => none)

/-- The anchored match plus group extraction of `parse_sexagesimal`: optional
sign (`-` gives `-1`, `+` or absence gives `1`), then the three numeric groups.
Trailing content after the match is ignored. -/
def parseSexList (cs : List Char) : Option (Int × Nat × Nat × ℚ) :=
  let s1 : Int × List Char :=
    match cs with
    | c :: r => if c = '+' then (1, r) else if c = '-' then (-1, r) else (1, c :: r)
    | [] => (1, [])
  match pABC s1.2 with
  | none => none
  | some ((a, b, c), _) => some (s1.1, a, b, c)

/-- Embedding of `parse_sexagesimal(sexagesimal)`; `none` stands for the
`ValueError` raised on a failed match. -/
def parse_sexagesimal (s : String) : Option (Int × Nat × Nat × ℚ) :=
  parseSexList s.data

/-- The message of the `ValueError` raised by `parse_sexagesimal`. -/
def parseErrorMsg (s : String) : String :=
  s ++ " can not be converted to decimal representation"

/-! ### String-to-decimal conversion -/

/-- Embedding of `hourangle_to_decimal_deg(hms)`: try `float(hms)` first, on
`ValueError` fall back to the sexagesimal quadruple scaled by `360/24`;
the result is rounded to 6 decimal places. -/
def hourangle_to_decimal_deg (hms : String) : Except String PyFloat :=
  match pyFloatList hms.data with
  | some v => .ok (pyRound6 v)
  | none =>
    match parse_sexagesimal hms with
    | some (sign, h, m, s) =>
        .ok (.fin (round6 ((sign : ℚ) * ((((s / 60) + m) / 60) + h) / 24 * 360)))
    | none => .error (parseErrorMsg hms)

/-- Embedding of `deg_to_decimal_deg(dms)`: like `hourangle_to_decimal_deg`
but with no base scaling of the sexagesimal value. -/
def deg_to_decimal_deg (dms : String) : Except String PyFloat :=
  match pyFloatList dms.data with
  | some v => .ok (pyRound6 v)
  | none =>
    match parse_sexagesimal dms with
    | some (sign, d, m, s) =>
        .ok (.fin (round6 ((sign : ℚ) * ((((s / 60) + m) / 60) + d))))
    | none => .error (parseErrorMsg dms)

/-- Embedding of `ra_to_decimal(hms)`. -/
def ra_to_decimal (hms : String) : Except String PyFloat := hourangle_to_decimal_deg hms

/-- Embedding of `dec_to_decimal(dms)`. -/
def dec_to_decimal (dms : String) : Except String PyFloat := deg_to_decimal_deg dms

/-! ### Rendering helpers used in statements about formatted output -/

/-- Two-digit zero-padded rendering of `n ≤ 99`. -/
def pad2 (n : Nat) : List Char := [digitChar (n / 10), digitChar (n % 10)]

/-- Three-digit zero-padded rendering of `n ≤ 999`. -/
def pad3 (n : Nat) : List Char :=
  [digitChar (n / 100), digitChar (n / 10 % 10), digitChar (n % 10)]

/-- The unsigned `AA<sep0>BB<sep1>SS.sss`-part of `format_sexagesimal` for a
2-character separator, as a function of the (sign-stripped) value `hq`. -/
def bodyChars (hq : ℚ) (c0 c1 : Char) (prec : Nat) : List Char :=
  pyFormat02d (pyInt hq) ++ c0 ::
    pyFormat02d (pyInt (pyMod (hq * 60) 60)) ++ c1 ::
      pyFormat06f prec (pyMod (pyMod (hq * 60) 60 * 60) 60)

/-- Head condition under which a greedy digit/fraction token cannot grow. -/
def goodHead (t : List Char) : Prop :=
  ∀ hd, t.head? = some hd → isDig hd = false ∧ hd ≠ '.'

/-! ### Digit lemmas -/

lemma isDig_digitChar {k : Nat} (hk : k ≤ 9) : isDig (digitChar k) = true := by
  interval_cases k <;> decide

lemma digVal_digitChar {k : Nat} (hk : k ≤ 9) : digVal (digitChar k) = k := by
  interval_cases k <;> decide

lemma digVal_le_of_isDig {c : Char} (h : isDig c = true) : digVal c ≤ 9 := by
  simp only [isDig, Bool.and_eq_true, decide_eq_true_eq] at h
  simp only [digVal]
  omega

lemma not_plus_of_isDig {c : Char} (h : isDig c = true) : c ≠ '+' := by
  simp only [isDig, Bool.and_eq_true, decide_eq_true_eq] at h
  intro he
  subst he
  simp at h

lemma not_minus_of_isDig {c : Char} (h : isDig c = true) : c ≠ '-' := by
  simp only [isDig, Bool.and_eq_true, decide_eq_true_eq] at h
  intro he
  subst he
  simp at h

lemma digitChar_ne_plus {k : Nat} (hk : k ≤ 9) : digitChar k ≠ '+' :=
  not_plus_of_isDig (isDig_digitChar hk)

lemma digitChar_ne_minus {k : Nat} (hk : k ≤ 9) : digitChar k ≠ '-' :=
  not_minus_of_isDig (isDig_digitChar hk)

/-! ### `natDigits` lemmas -/

lemma natDigitsAux_congr (n : Nat) :
    ∀ f₁ f₂, n < f₁ → n < f₂ → natDigitsAux f₁ n = natDigitsAux f₂ n := by
  induction n using Nat.strong_induction_on with
  | _ n ih =>
    intro f₁ f₂ h₁ h₂
    match f₁, f₂ with
    | g₁ + 1, g₂ + 1 =>
      simp only [natDigitsAux]
      by_cases h10 : n < 10
      · simp [h10]
      · simp only [h10, if_false]
        rw [ih (n / 10) (by omega) g₁ g₂ (by omega) (by omega)]

lemma natDigits_lt_ten {n : Nat} (h : n < 10) : natDigits n = [digitChar n] := by
  simp [natDigits, natDigitsAux, h]

lemma natDigits_two {n : Nat} (h₁ : 10 ≤ n) (h₂ : n ≤ 99) :
    natDigits n = [digitChar (n / 10), digitChar (n % 10)] := by
  show natDigitsAux (n + 1) n = _
  simp only [natDigitsAux]
  rw [if_neg (by omega),
    natDigitsAux_congr (n / 10) n (n / 10 + 1) (by omega) (by omega)]
  show natDigits (n / 10) ++ _ = _
  rw [natDigits_lt_ten (by omega)]
  rfl

lemma natDigits_three {n : Nat} (h₁ : 100 ≤ n) (h₂ : n ≤ 999) :
    natDigits n = [digitChar (n / 100), digitChar (n / 10 % 10), digitChar (n % 10)] := by
  show natDigitsAux (n + 1) n = _
  simp only [natDigitsAux]
  rw [if_neg (by omega),
    natDigitsAux_congr (n / 10) n (n / 10 + 1) (by omega) (by omega)]
  show natDigits (n / 10) ++ _ = _
  rw [natDigits_two (by omega) (by omega)]
  rw [Nat.div_div_eq_div_mul]
  rfl

lemma natDigits_all_dig (n : Nat) : ∀ c ∈ natDigits n, isDig c = true := by
  show ∀ c ∈ natDigitsAux (n + 1) n, isDig c = true
  generalize hf : n + 1 = f
  have hn : n < f := by omega
  clear hf
  induction f generalizing n with
  | zero => omega
  | succ g ih =>
    simp only [natDigitsAux]
    by_cases h10 : n < 10
    · simp only [h10, if_true, List.mem_singleton]
      rintro c rfl
      exact isDig_digitChar (by omega)
    · simp only [h10, if_false, List.mem_append, List.mem_singleton]
      rintro c (hc | rfl)
      · exact ih (n / 10) (by omega) c hc
      · exact isDig_digitChar (by omega)

lemma natDigits_ne_nil (n : Nat) : natDigits n ≠ [] := by
  show natDigitsAux (n + 1) n ≠ []
  simp only [natDigitsAux]
  by_cases h10 : n < 10 <;> simp [h10]

/-! ### Padding lemmas -/

lemma leftPad2_natDigits {n : Nat} (h : n ≤ 99) : leftPad 2 '0' (natDigits n) = pad2 n := by
  by_cases h10 : n < 10
  · rw [natDigits_lt_ten h10]
    simp only [leftPad, pad2, List.length_singleton, Nat.div_eq_of_lt h10,
      Nat.mod_eq_of_lt h10]
    rfl
  · rw [natDigits_two (by omega) h]
    simp [leftPad, pad2]

lemma leftPad3_natDigits {n : Nat} (h : n ≤ 999) : leftPad 3 '0' (natDigits n) = pad3 n := by
  by_cases h10 : n < 10
  · rw [natDigits_lt_ten h10]
    simp only [leftPad, pad3, List.length_singleton, Nat.div_eq_of_lt (by omega : n < 100),
      Nat.div_eq_of_lt h10, Nat.mod_eq_of_lt h10]
    rfl
  · by_cases h100 : n < 100
    · rw [natDigits_two (by omega) (by omega)]
      simp only [leftPad, pad3, List.length_cons, List.length_singleton,
        Nat.div_eq_of_lt h100]
      have h1 : n / 10 % 10 = n / 10 := by omega
      rw [h1]
      rfl
    · rw [natDigits_three (by omega) h]
      simp [leftPad, pad3]

lemma pyFormat02d_eq_pad2 {n : Int} (h0 : 0 ≤ n) (h99 : n ≤ 99) :
    pyFormat02d n = pad2 n.toNat := by
  rw [pyFormat02d, if_neg (by omega)]
  exact leftPad2_natDigits (by omega)

/-! ### `pyInt`, `pyMod` and rounding lemmas -/

lemma pyInt_of_nonneg {q : ℚ} (h : 0 ≤ q) : pyInt q = ⌊q⌋ := by
  simp [pyInt, h]

lemma pyMod_nonneg {a b : ℚ} (hb : 0 < b) : 0 ≤ pyMod a b := by
  have h1 : (⌊a / b⌋ : ℚ) ≤ a / b := Int.floor_le _
  have h2 : (⌊a / b⌋ : ℚ) * b ≤ a / b * b := by
    exact mul_le_mul_of_nonneg_right h1 hb.le
  rw [div_mul_cancel₀ _ hb.ne'] at h2
  simp only [pyMod]
  linarith [h2]

lemma pyMod_lt {a b : ℚ} (hb : 0 < b) : pyMod a b < b := by
  have h1 : a / b < (⌊a / b⌋ : ℚ) + 1 := Int.lt_floor_add_one _
  have h2 : a / b * b < ((⌊a / b⌋ : ℚ) + 1) * b := by
    exact mul_lt_mul_of_pos_right h1 hb
  rw [div_mul_cancel₀ _ hb.ne'] at h2
  simp only [pyMod]
  nlinarith [h2]

lemma pyMod_sixty (h : ℚ) : pyMod (h * 60) 60 = 60 * (h - ⌊h⌋) := by
  have : h * 60 / 60 = h := by ring
  simp only [pyMod, this]
  ring

lemma abs_round_sub (x : ℚ) : |(round x : ℚ) - x| ≤ 1 / 2 := by
  rw [abs_sub_comm]
  exact abs_sub_round x

lemma round6_close (q : ℚ) : |round6 q - q| ≤ 1 / 2000000 := by
  have h := abs_round_sub (q * 1000000)
  have h2 : round6 q - q = ((round (q * 1000000) : ℚ) - q * 1000000) / 1000000 := by
    simp only [round6]
    ring
  rw [h2, abs_div]
  rw [show |(1000000 : ℚ)| = 1000000 by norm_num]
  linarith

/-! ### `takeDigits` lemmas -/

lemma takeDigits_append {ds : List Char} (r : List Char) (h : ∀ c ∈ ds, isDig c = true) :
    takeDigits (ds ++ r) = (ds ++ (takeDigits r).1, (takeDigits r).2) := by
  induction ds with
  | nil => simp [takeDigits]
  | cons c cs ih =>
    have hc : isDig c = true := h c (by simp)
    simp only [List.cons_append, takeDigits, hc, if_true, List.append_eq]
    rw [ih (fun c hc => h c (by simp [hc]))]

lemma takeDigits_not_head {r : List Char} (h : ∀ c, r.head? = some c → isDig c = false) :
    takeDigits r = ([], r) := by
  cases r with
  | nil => rfl
  | cons c cs => simp [takeDigits, h c rfl]

lemma takeDigits_exact {ds r : List Char} (hds : ∀ c ∈ ds, isDig c = true)
    (hr : ∀ c, r.head? = some c → isDig c = false) :
    takeDigits (ds ++ r) = (ds, r) := by
  rw [takeDigits_append r hds, takeDigits_not_head hr]
  simp

lemma takeDigits_all {ds : List Char} (hds : ∀ c ∈ ds, isDig c = true) :
    takeDigits ds = (ds, []) := by
  have h := takeDigits_exact (r := []) hds (by simp)
  simpa using h

lemma pad2_all_dig {n : Nat} (h : n ≤ 99) : ∀ c ∈ pad2 n, isDig c = true := by
  intro c hc
  simp only [pad2, List.mem_cons, List.not_mem_nil, or_false] at hc
  rcases hc with rfl | rfl
  · exact isDig_digitChar (by omega)
  · exact isDig_digitChar (by omega)

lemma pad3_all_dig {n : Nat} (h : n ≤ 999) : ∀ c ∈ pad3 n, isDig c = true := by
  intro c hc
  simp only [pad3, List.mem_cons, List.not_mem_nil, or_false] at hc
  rcases hc with rfl | rfl | rfl
  · exact isDig_digitChar (by omega)
  · exact isDig_digitChar (by omega)
  · exact isDig_digitChar (by omega)

/-! ### Structure of the formatted seconds field at the default precision -/

lemma pyFormat06f_three {s : ℚ} (h0 : 0 ≤ s) (h60 : s < 60) :
    pyFormat06f 3 s =
      pad2 ((round (s * 1000)).toNat / 1000) ++ '.' :: pad3 ((round (s * 1000)).toNat % 1000) := by
  have hN0 : 0 ≤ round (s * 1000) := by
    rw [round_eq]
    exact Int.le_floor.mpr (by push_cast; linarith)
  have hN : round (s * 1000) ≤ 60000 := by
    rw [round_eq]
    have h1 : (⌊s * 1000 + 1 / 2⌋ : ℤ) < 60001 := by
      rw [Int.floor_lt]
      push_cast
      linarith
    omega
  simp only [pyFormat06f]
  rw [show (10 : ℚ) ^ 3 = 1000 by norm_num, show (10 : Nat) ^ 3 = 1000 by norm_num]
  rw [if_neg (by omega), if_neg (by norm_num)]
  set n : Nat := (round (s * 1000)).toNat with hn
  have hn60 : n ≤ 60000 := by omega
  have habs : (round (s * 1000)).natAbs = n := by omega
  rw [habs, leftPad3_natDigits (show n % 1000 ≤ 999 by omega)]
  by_cases hip : n / 1000 < 10
  · rw [natDigits_lt_ten hip]
    simp only [leftPad, List.length_append, List.length_singleton, List.length_cons]
    rw [show (pad3 (n % 1000)).length = 3 from rfl]
    simp only [pad2, Nat.div_eq_of_lt hip, Nat.mod_eq_of_lt hip]
    rfl
  · rw [natDigits_two (by omega) (by omega)]
    simp only [leftPad, List.length_append, List.length_cons]
    rw [show (pad3 (n % 1000)).length = 3 from rfl]
    simp only [pad2]
    rfl

/-! ### The matcher on rendered digit groups -/

lemma pDig_cons {c : Char} (h : isDig c = true) (r : List Char) :
    pDig (c :: r) = some (digVal c, r) := by
  simp [pDig, h]

lemma pDig_cons_not {c : Char} (h : isDig c = false) (r : List Char) :
    pDig (c :: r) = none := by
  simp [pDig, h]

lemma pNum2_pad2 {n : Nat} (h : n ≤ 99) (r : List Char) :
    pNum2 (pad2 n ++ r) = some (n, r) := by
  show pNum2 (digitChar (n / 10) :: digitChar (n % 10) :: r) = some (n, r)
  simp only [pNum2, pDig_cons (isDig_digitChar (show n / 10 ≤ 9 by omega)),
    pDig_cons (isDig_digitChar (show n % 10 ≤ 9 by omega)),
    digVal_digitChar (show n / 10 ≤ 9 by omega),
    digVal_digitChar (show n % 10 ≤ 9 by omega), Option.some.injEq, Prod.mk.injEq]
  exact ⟨by omega, trivial⟩

lemma fracVal_pad3 {f : Nat} (h : f ≤ 999) : fracVal (pad3 f) = (f : ℚ) / 1000 := by
  simp only [pad3, fracVal, List.foldr_cons, List.foldr_nil]
  rw [digVal_digitChar (show f / 100 ≤ 9 by omega),
    digVal_digitChar (show f / 10 % 10 ≤ 9 by omega),
    digVal_digitChar (show f % 10 ≤ 9 by omega)]
  have hn : f = f / 100 * 100 + f / 10 % 10 * 10 + f % 10 := by omega
  conv_rhs => rw [hn]
  push_cast
  ring

lemma pSep_cons {p : Char → Bool} {c : Char} (h : p c = true) (r : List Char) :
    pSep p (c :: r) = some r := by
  simp [pSep, h]

lemma pC_pad {sv fv : Nat} (hs : sv ≤ 99) (hf : fv ≤ 999) :
    pC (pad2 sv ++ '.' :: pad3 fv) = some ((sv : ℚ) + (fv : ℚ) / 1000, []) := by
  show pC (digitChar (sv / 10) :: digitChar (sv % 10) :: '.' :: pad3 fv) = _
  simp only [pC, pCrest, pDig_cons (isDig_digitChar (show sv / 10 ≤ 9 by omega)),
    pDig_cons (isDig_digitChar (show sv % 10 ≤ 9 by omega)), if_pos rfl,
    takeDigits_all (pad3_all_dig hf),
    digVal_digitChar (show sv / 10 ≤ 9 by omega),
    digVal_digitChar (show sv % 10 ≤ 9 by omega), fracVal_pad3 hf,
    Option.some.injEq, Prod.mk.injEq]
  have h1 : sv / 10 * 10 + sv % 10 = sv := by omega
  rw [h1]
  simp

lemma pBC_pad {b sv fv : Nat} (hb : b ≤ 99) (hs : sv ≤ 99) (hf : fv ≤ 999) :
    pBC (pad2 b ++ ':' :: (pad2 sv ++ '.' :: pad3 fv)) =
      some ((b, (sv : ℚ) + (fv : ℚ) / 1000), []) := by
  simp only [pBC, pNum2_pad2 hb, pBCwith, pSep_cons (show isSep2 ':' = true by decide),
    pC_pad hs hf]
  rfl

lemma pABC_pad {a b sv fv : Nat} (ha : a ≤ 99) (hb : b ≤ 99) (hs : sv ≤ 99) (hf : fv ≤ 999) :
    pABC (pad2 a ++ ':' :: (pad2 b ++ ':' :: (pad2 sv ++ '.' :: pad3 fv))) =
      some ((a, b, (sv : ℚ) + (fv : ℚ) / 1000), []) := by
  simp only [pABC, pNum2_pad2 ha, pABCwith, pSep_cons (show isSep1 ':' = true by decide),
    pBC_pad hb hs hf]
  rfl

lemma parseSexList_cons_digit {d : Char} (hd : isDig d = true) (r : List Char) :
    parseSexList (d :: r) =
      match pABC (d :: r) with
      | none => none
      | some ((a, b, c), _) => some ((1 : Int), a, b, c) := by
  rw [parseSexList]
  simp [not_plus_of_isDig hd, not_minus_of_isDig hd]

lemma parseSexList_plus (r : List Char) :
    parseSexList ('+' :: r) =
      match pABC r with
      | none => none
      | some ((a, b, c), _) => some ((1 : Int), a, b, c) := by
  simp [parseSexList]

lemma parseSexList_minus (r : List Char) :
    parseSexList ('-' :: r) =
      match pABC r with
      | none => none
      | some ((a, b, c), _) => some ((-1 : Int), a, b, c) := by
  simp [parseSexList]

lemma isPyWs_digitChar {k : Nat} (hk : k ≤ 9) : isPyWs (digitChar k) = false := by
  interval_cases k <;> decide

lemma skipWs_cons_not {c : Char} (h : isPyWs c = false) (r : List Char) :
    skipWs (c :: r) = c :: r := by
  simp [skipWs, h]

lemma matchLower_fail {k c : Char} (hc : c.toLower ≠ k) (ks r : List Char) :
    matchLower (k :: ks) (c :: r) = none := by
  simp [matchLower, hc]

lemma digitChar_toLower_ne {k : Nat} (hk : k ≤ 9) :
    (digitChar k).toLower ≠ 'i' ∧ (digitChar k).toLower ≠ 'n' := by
  interval_cases k <;> exact ⟨by decide, by decide⟩

lemma pyFloatCore_pad_colon {a : Nat} (ha : a ≤ 99) (rest : List Char) :
    ∃ q, pyFloatCore (pad2 a ++ ':' :: rest) = some (q, ':' :: rest) := by
  have ht : takeDigits (pad2 a ++ ':' :: rest) = (pad2 a, ':' :: rest) :=
    takeDigits_exact (pad2_all_dig ha)
      (by intro c hc; simp only [List.head?_cons, Option.some.injEq] at hc; rw [← hc]; decide)
  refine ⟨(intVal (pad2 a) : ℚ) + fracVal [], ?_⟩
  simp only [pyFloatCore, ht]
  simp [pad2]

lemma pyFloatList_rendered_none {pre rest : List Char} {a : Nat} (ha : a ≤ 99)
    (hpre : pre = [] ∨ pre = ['+'] ∨ pre = ['-']) :
    pyFloatList (pre ++ (pad2 a ++ ':' :: rest)) = none := by
  have h9 : a / 10 ≤ 9 := by omega
  have hlow := digitChar_toLower_ne h9
  obtain ⟨q, hcore⟩ := pyFloatCore_pad_colon ha rest
  have htail : (pad2 a ++ ':' :: rest) =
      digitChar (a / 10) :: (digitChar (a % 10) :: ':' :: rest) := rfl
  have hcore' : pyFloatCore (digitChar (a / 10) :: (digitChar (a % 10) :: ':' :: rest)) =
      some (q, ':' :: rest) := htail ▸ hcore
  have hnp : ('-' : Char) ≠ '+' := by decide
  rcases hpre with rfl | rfl | rfl
  · rw [List.nil_append, htail, pyFloatList,
      skipWs_cons_not (isPyWs_digitChar h9)]
    simp only [digitChar_ne_plus h9, digitChar_ne_minus h9, if_false,
      matchLower_fail hlow.1, matchLower_fail hlow.2, hcore']
    simp [skipWs_cons_not (show isPyWs ':' = false by decide)]
  · rw [List.singleton_append, htail, pyFloatList,
      skipWs_cons_not (show isPyWs '+' = false by decide)]
    simp only [eq_self_iff_true, if_true,
      matchLower_fail hlow.1, matchLower_fail hlow.2, hcore']
    simp [skipWs_cons_not (show isPyWs ':' = false by decide)]
  · rw [List.singleton_append, htail, pyFloatList,
      skipWs_cons_not (show isPyWs '-' = false by decide)]
    simp only [hnp, if_false, eq_self_iff_true, if_true,
      matchLower_fail hlow.1, matchLower_fail hlow.2, hcore']
    simp [skipWs_cons_not (show isPyWs ':' = false by decide)]

lemma parseSexList_pad {sg : Int} {pre : List Char} {a b sv fv : Nat}
    (ha : a ≤ 99) (hb : b ≤ 99) (hs : sv ≤ 99) (hf : fv ≤ 999)
    (hpre : pre = [] ∧ sg = 1 ∨ pre = ['+'] ∧ sg = 1 ∨ pre = ['-'] ∧ sg = -1) :
    parseSexList (pre ++ (pad2 a ++ ':' :: (pad2 b ++ ':' :: (pad2 sv ++ '.' :: pad3 fv)))) =
      some (sg, a, b, (sv : ℚ) + (fv : ℚ) / 1000) := by
  have hbody := pABC_pad ha hb hs hf
  rcases hpre with ⟨rfl, rfl⟩ | ⟨rfl, rfl⟩ | ⟨rfl, rfl⟩
  · rw [List.nil_append,
      show (pad2 a ++ ':' :: (pad2 b ++ ':' :: (pad2 sv ++ '.' :: pad3 fv))) =
        digitChar (a / 10) :: (digitChar (a % 10) :: ':' ::
          (pad2 b ++ ':' :: (pad2 sv ++ '.' :: pad3 fv))) from rfl]
    rw [parseSexList_cons_digit (isDig_digitChar (show a / 10 ≤ 9 by omega))]
    rw [show (digitChar (a / 10) :: (digitChar (a % 10) :: ':' ::
        (pad2 b ++ ':' :: (pad2 sv ++ '.' :: pad3 fv)))) =
      (pad2 a ++ ':' :: (pad2 b ++ ':' :: (pad2 sv ++ '.' :: pad3 fv))) from rfl]
    rw [hbody]
  · rw [List.singleton_append, parseSexList_plus, hbody]
  · rw [List.singleton_append, parseSexList_minus, hbody]

/-! ### Formatter output at the default separator, and the round trip -/

lemma format_sexagesimal_colon (deg mult : ℚ) (sgn : Bool) (prec : Nat) :
    format_sexagesimal deg mult sgn ":" prec =
      some ⟨(if sgn then (if 0 < deg then ['+'] else ['-']) else []) ++
        bodyChars ((if 0 < deg then (1 : ℚ) else -1) * mult * deg) ':' ':' prec⟩ := by
  rw [format_sexagesimal]
  rw [if_neg (by decide : ¬(":".length = 0))]
  simp only [bodyChars, show ":".length = 1 from rfl, if_pos rfl,
    show ":".data = [':'] from rfl]
  by_cases hdeg : 0 < deg
  · simp [hdeg]
  · simp [hdeg]

lemma roundtrip_parse (hq : ℚ) (h0 : 0 ≤ hq) (h100 : hq < 100) {sg : Int} {pre : List Char}
    (hpre : pre = [] ∧ sg = 1 ∨ pre = ['+'] ∧ sg = 1 ∨ pre = ['-'] ∧ sg = -1) :
    ∃ (a b : ℕ) (c : ℚ),
      parseSexList (pre ++ bodyChars hq ':' ':' 3) = some (sg, a, b, c) ∧
      pyFloatList (pre ++ bodyChars hq ':' ':' 3) = none ∧
      |(((c / 60) + (b : ℚ)) / 60 + (a : ℚ)) - hq| ≤ 1 / 7200000 := by
  have hfA0 : (0 : Int) ≤ ⌊hq⌋ := Int.le_floor.mpr (by exact_mod_cast h0)
  have hfA99 : ⌊hq⌋ < 100 := Int.floor_lt.mpr (by exact_mod_cast h100)
  set m : ℚ := pyMod (hq * 60) 60 with hm
  have hm0 : 0 ≤ m := pyMod_nonneg (by norm_num)
  have hm60 : m < 60 := pyMod_lt (by norm_num)
  set s : ℚ := pyMod (m * 60) 60 with hs
  have hs0 : 0 ≤ s := pyMod_nonneg (by norm_num)
  have hs60 : s < 60 := pyMod_lt (by norm_num)
  have hfB0 : (0 : Int) ≤ ⌊m⌋ := Int.le_floor.mpr (by exact_mod_cast hm0)
  have hfB60 : ⌊m⌋ < 60 := Int.floor_lt.mpr (by exact_mod_cast hm60)
  have hN0 : (0 : Int) ≤ round (s * 1000) := by
    rw [round_eq]
    exact Int.le_floor.mpr (by push_cast; linarith)
  have hN6 : round (s * 1000) ≤ 60000 := by
    rw [round_eq]
    have h1 : (⌊s * 1000 + 1 / 2⌋ : ℤ) < 60001 := by
      rw [Int.floor_lt]; push_cast; linarith
    omega
  set A : Nat := ⌊hq⌋.toNat with hA
  set B : Nat := ⌊m⌋.toNat with hB
  set N : Nat := (round (s * 1000)).toNat with hN
  have hA99 : A ≤ 99 := by omega
  have hB99 : B ≤ 99 := by omega
  have hN60 : N ≤ 60000 := by omega
  have hbody : bodyChars hq ':' ':' 3 =
      pad2 A ++ ':' :: (pad2 B ++ ':' :: (pad2 (N / 1000) ++ '.' :: pad3 (N % 1000))) := by
    rw [bodyChars, pyInt_of_nonneg h0, ← hm, pyInt_of_nonneg hm0, ← hs,
      pyFormat02d_eq_pad2 hfA0 (by omega), pyFormat02d_eq_pad2 hfB0 (by omega),
      pyFormat06f_three hs0 hs60]
    rfl
  refine ⟨A, B, ((N : ℚ) / 1000), ?_, ?_, ?_⟩
  · rw [hbody, parseSexList_pad hA99 hB99 (by omega) (by omega) hpre]
    congr 2
    have h2 : N / 1000 * 1000 + N % 1000 = N := by omega
    have h1 : (N : ℚ) = ((N / 1000 : Nat) : ℚ) * 1000 + ((N % 1000 : Nat) : ℚ) := by
      exact_mod_cast congrArg (fun x : Nat => (x : ℚ)) h2.symm
    rw [h1]
    ring
  · rw [hbody]
    rcases hpre with ⟨rfl, _⟩ | ⟨rfl, _⟩ | ⟨rfl, _⟩
    · exact pyFloatList_rendered_none hA99 (Or.inl rfl)
    · exact pyFloatList_rendered_none hA99 (Or.inr (Or.inl rfl))
    · exact pyFloatList_rendered_none hA99 (Or.inr (Or.inr rfl))
  · have hAq : (A : ℚ) = (⌊hq⌋ : ℚ) := by
      rw [hA]
      exact_mod_cast congrArg (fun z : Int => (z : ℚ)) (Int.toNat_of_nonneg hfA0)
    have hBq : (B : ℚ) = (⌊m⌋ : ℚ) := by
      rw [hB]
      exact_mod_cast congrArg (fun z : Int => (z : ℚ)) (Int.toNat_of_nonneg hfB0)
    have hNq : (N : ℚ) = ((round (s * 1000) : ℤ) : ℚ) := by
      rw [hN]
      exact_mod_cast congrArg (fun z : Int => (z : ℚ)) (Int.toNat_of_nonneg hN0)
    have hmv : m = 60 * (hq - ⌊hq⌋) := by rw [hm, pyMod_sixty]
    have hsv : s = 60 * (m - ⌊m⌋) := by rw [hs, pyMod_sixty]
    have hexact : (s / 60 + (B : ℚ)) / 60 + (A : ℚ) = hq := by
      rw [hAq, hBq, hsv, hmv]
      ring
    have hclose : |(N : ℚ) / 1000 - s| ≤ 1 / 2000 := by
      have h2 : (N : ℚ) / 1000 - s =
          -((s * 1000 - ((round (s * 1000) : ℤ) : ℚ)) / 1000) := by
        rw [hNq]; ring
      rw [h2, abs_neg, abs_div, show |(1000 : ℚ)| = 1000 by norm_num]
      linarith [abs_sub_round (s * 1000)]
    have hdiff : ((N : ℚ) / 1000 / 60 + (B : ℚ)) / 60 + (A : ℚ) - hq =
        ((N : ℚ) / 1000 - s) / 3600 := by
      rw [← hexact]
      ring
    rw [hdiff, abs_div, show |(3600 : ℚ)| = 3600 by norm_num]
    linarith [abs_nonneg ((N : ℚ) / 1000 - s)]


lemma format_colon_pos {deg : ℚ} (mult : ℚ) (hd : 0 < deg) (sgn : Bool) (prec : Nat) :
    format_sexagesimal deg mult sgn ":" prec =
      some ⟨(if sgn then ['+'] else []) ++ bodyChars (mult * deg) ':' ':' prec⟩ := by
  rw [format_sexagesimal_colon]
  simp [hd]

lemma format_colon_nonpos {deg : ℚ} (mult : ℚ) (hd : ¬0 < deg) (sgn : Bool) (prec : Nat) :
    format_sexagesimal deg mult sgn ":" prec =
      some ⟨(if sgn then ['-'] else []) ++ bodyChars (-(mult * deg)) ':' ':' prec⟩ := by
  rw [format_sexagesimal_colon]
  simp [hd]

lemma round6_is_close {x d : ℚ} (hx : |x - d| ≤ 15 / 7200000) : |round6 x - d| ≤ 1 / 1000 := by
  calc |round6 x - d| ≤ |round6 x - x| + |x - d| := abs_sub_le _ _ _
    _ ≤ 1 / 2000000 + 15 / 7200000 := add_le_add (round6_close x) hx
    _ ≤ 1 / 1000 := by norm_num


/-! ## The claims -/

/-- C1: `hourangle_to_decimal_deg` (`ra_to_decimal`) and `deg_to_decimal_deg`
(`dec_to_decimal`) first try to read the input as a plain real number; on
success that number is returned rounded to 6 decimal places with no base
scaling in either function, and otherwise the string is parsed as a
sexagesimal quadruple `(sign, A, B, C)` and the result is
`round(sign * (((C/60 + B)/60) + A) * k, 6)` with `k = 360/24` for the
hour-angle function and `k = 1` for the degree function; in particular
`ra_to_decimal("12:00:00") = 180.0` and `dec_to_decimal("-45:30:00") = -45.5`. -/
theorem claim_C1 :
    (∀ s : String, ∀ v : PyFloat, pyFloatList s.data = some v →
      ra_to_decimal s = .ok (pyRound6 v) ∧ dec_to_decimal s = .ok (pyRound6 v)) ∧
    (∀ s : String, ∀ sg : Int, ∀ a b : ℕ, ∀ c : ℚ,
      pyFloatList s.data = none → parse_sexagesimal s = some (sg, a, b, c) →
      ra_to_decimal s =
        .ok (.fin (round6 ((sg : ℚ) * ((c / 60 + (b : ℚ)) / 60 + (a : ℚ)) * (360 / 24)))) ∧
      dec_to_decimal s =
        .ok (.fin (round6 ((sg : ℚ) * ((c / 60 + (b : ℚ)) / 60 + (a : ℚ)) * 1)))) ∧
    ra_to_decimal "12:00:00" = .ok (.fin 180) ∧
    dec_to_decimal "-45:30:00" = .ok (.fin (-(91 / 2))) := by
  refine ⟨?_, ?_, ?_, ?_⟩
  · intro s v hv
    constructor
    · simp [ra_to_decimal, hourangle_to_decimal_deg, hv]
    · simp [dec_to_decimal, deg_to_decimal_deg, hv]
  · intro s sg a b c hfloat hparse
    constructor
    · rw [ra_to_decimal, hourangle_to_decimal_deg]
      simp only [hfloat, hparse]
      exact congrArg (fun x : ℚ => Except.ok (PyFloat.fin (round6 x))) (by ring)
    · rw [dec_to_decimal, deg_to_decimal_deg]
      simp only [hfloat, hparse]
      exact congrArg (fun x : ℚ => Except.ok (PyFloat.fin (round6 x))) (by ring)
  · simp [ra_to_decimal, hourangle_to_decimal_deg, pyFloatList, skipWs, matchLower, pyFloatCore,
      takeDigits, isDig, isPyWs, intVal, fracVal, digVal, parse_sexagesimal, parseSexList, pABC,
      pABCwith, pBC, pBCwith, pNum2, pDig, pSep, pC, pCrest, isSep1, isSep2, round6]
    norm_num [round_eq]
  · simp [dec_to_decimal, deg_to_decimal_deg, pyFloatList, skipWs, matchLower, pyFloatCore,
      takeDigits, isDig, isPyWs, intVal, fracVal, digVal, parse_sexagesimal, parseSexList, pABC,
      pABCwith, pBC, pBCwith, pNum2, pDig, pSep, pC, pCrest, isSep1, isSep2, round6]
    norm_num [round_eq]

/-- Witness for C1 at the concrete inputs `"45.5"` (bare-decimal branch) and
`"1:2:3"` (sexagesimal branch). -/
theorem claim_C1_witness :
    ra_to_decimal "45.5" = .ok (pyRound6 (.fin (91 / 2))) ∧
    ra_to_decimal "1:2:3" =
      .ok (.fin (round6 ((1 : ℚ) * (((3 : ℚ) / 60 + (2 : ℚ)) / 60 + (1 : ℚ)) * (360 / 24)))) := by
  constructor
  · refine (claim_C1.1 "45.5" (.fin (91 / 2)) ?_).1
    simp [pyFloatList, skipWs, matchLower, pyFloatCore, takeDigits, isDig, isPyWs, intVal,
      fracVal, digVal]
    norm_num
  · have h2 : pyFloatList "1:2:3".data = none := by
      simp [pyFloatList, skipWs, matchLower, pyFloatCore, takeDigits, isDig, isPyWs, intVal,
        fracVal, digVal]
    have h3 : parse_sexagesimal "1:2:3" = some (1, 1, 2, 3) := by
      simp [parse_sexagesimal, parseSexList, pABC, pABCwith, pBC, pBCwith, pNum2, pDig, pSep,
        pC, pCrest, isSep1, isSep2, isDig, digVal, takeDigits, fracVal]
    have h := (claim_C1.2.1 "1:2:3" 1 1 2 3 h2 h3).1
    simpa using h

/-- C3: the string-to-decimal operations raise a parse error exactly when the
input is neither readable as a bare real number nor matched by the sexagesimal
grammar, and the error message carries the offending input string; on any
matching input no error is raised. -/
theorem claim_C3 :
    ∀ s : String,
      ((∃ e, ra_to_decimal s = .error e) ↔
        pyFloatList s.data = none ∧ parse_sexagesimal s = none) ∧
      ((∃ e, dec_to_decimal s = .error e) ↔
        pyFloatList s.data = none ∧ parse_sexagesimal s = none) ∧
      (∀ e, ra_to_decimal s = .error e →
        e = s ++ " can not be converted to decimal representation") ∧
      (∀ e, dec_to_decimal s = .error e →
        e = s ++ " can not be converted to decimal representation") := by
  intro s
  cases h1 : pyFloatList s.data with
  | some v =>
    simp [ra_to_decimal, hourangle_to_decimal_deg, dec_to_decimal, deg_to_decimal_deg, h1]
  | none =>
    cases h2 : parse_sexagesimal s with
    | some q =>
      obtain ⟨sg, a, b, c⟩ := q
      simp [ra_to_decimal, hourangle_to_decimal_deg, dec_to_decimal, deg_to_decimal_deg, h1, h2]
    | none =>
      simp [ra_to_decimal, hourangle_to_decimal_deg, dec_to_decimal, deg_to_decimal_deg, h1, h2,
        parseErrorMsg]

/-- Witness for C3 at the concrete input `"not-an-angle"`. -/
theorem claim_C3_witness :
    (∃ e, ra_to_decimal "not-an-angle" = .error e) ∧
    (∀ e, ra_to_decimal "not-an-angle" = .error e →
      e = "not-an-angle" ++ " can not be converted to decimal representation") := by
  have h1 : pyFloatList "not-an-angle".data = none := by
    simp [pyFloatList, skipWs, matchLower, pyFloatCore, takeDigits, isDig, isPyWs, intVal,
      fracVal, digVal]
  have h2 : parse_sexagesimal "not-an-angle" = none := by
    simp [parse_sexagesimal, parseSexList, pABC, pABCwith, pBC, pBCwith, pNum2, pDig, pSep,
      pC, pCrest, isSep1, isSep2, isDig, digVal, takeDigits, fracVal]
  exact ⟨(claim_C3 "not-an-angle").1.mpr ⟨h1, h2⟩, (claim_C3 "not-an-angle").2.2.1⟩

/-- C2: round trip with the default separator and precision: for every
`d ∈ [-89.999, 89.999]`, parsing the degree-mode formatter output recovers `d`
to within `1e-3`, and for every `h ∈ [0, 359.999]`, parsing the hour-angle
formatter output recovers `h` to within `1e-3`. -/
theorem claim_C2 :
    (∀ d : ℚ, -(89999 / 1000) ≤ d → d ≤ 89999 / 1000 →
      ∀ str, to_degminsec_sexagesimal d ":" true 3 = some str →
        ∃ v : ℚ, deg_to_decimal_deg str = .ok (.fin v) ∧ |v - d| ≤ 1 / 1000) ∧
    (∀ d : ℚ, 0 ≤ d → d ≤ 359999 / 1000 →
      ∀ str, to_hourangle_sexagesimal d ":" false 3 = some str →
        ∃ v : ℚ, hourangle_to_decimal_deg str = .ok (.fin v) ∧ |v - d| ≤ 1 / 1000) := by
  constructor
  · intro d hlo hhi str hstr
    rw [to_degminsec_sexagesimal] at hstr
    by_cases hd : 0 < d
    · rw [format_colon_pos 1 hd, one_mul] at hstr
      obtain ⟨a, b, c, hparse, hfloat, hclose⟩ :=
        roundtrip_parse d hd.le (by linarith) (Or.inr (Or.inl ⟨rfl, rfl⟩))
      obtain rfl : (⟨'+' :: bodyChars d ':' ':' 3⟩ : String) = str := by simpa using hstr
      have hfloat' : pyFloatList ('+' :: bodyChars d ':' ':' 3) = none := hfloat
      have hparse' : parseSexList ('+' :: bodyChars d ':' ':' 3) = some (1, a, b, c) := hparse
      refine ⟨round6 (((1 : Int) : ℚ) * ((c / 60 + (b : ℚ)) / 60 + (a : ℚ))), ?_, ?_⟩
      · rw [deg_to_decimal_deg]
        simp only [parse_sexagesimal, show (⟨'+' :: bodyChars d ':' ':' 3⟩ : String).data =
          '+' :: bodyChars d ':' ':' 3 from rfl, hfloat', hparse']
      · refine round6_is_close ?_
        rw [show ((1 : Int) : ℚ) * ((c / 60 + (b : ℚ)) / 60 + (a : ℚ)) - d =
          ((c / 60 + (b : ℚ)) / 60 + (a : ℚ)) - d from by push_cast; ring]
        linarith [hclose]
    · rw [format_colon_nonpos 1 hd, one_mul] at hstr
      obtain ⟨a, b, c, hparse, hfloat, hclose⟩ :=
        roundtrip_parse (-d) (by linarith [not_lt.mp hd]) (by linarith)
          (Or.inr (Or.inr ⟨rfl, rfl⟩))
      obtain rfl : (⟨'-' :: bodyChars (-d) ':' ':' 3⟩ : String) = str := by simpa using hstr
      have hfloat' : pyFloatList ('-' :: bodyChars (-d) ':' ':' 3) = none := hfloat
      have hparse' : parseSexList ('-' :: bodyChars (-d) ':' ':' 3) = some (-1, a, b, c) := hparse
      refine ⟨round6 (((-1 : Int) : ℚ) * ((c / 60 + (b : ℚ)) / 60 + (a : ℚ))), ?_, ?_⟩
      · rw [deg_to_decimal_deg]
        simp only [parse_sexagesimal, show (⟨'-' :: bodyChars (-d) ':' ':' 3⟩ : String).data =
          '-' :: bodyChars (-d) ':' ':' 3 from rfl, hfloat', hparse']
      · refine round6_is_close ?_
        rw [show ((-1 : Int) : ℚ) * ((c / 60 + (b : ℚ)) / 60 + (a : ℚ)) - d =
          -(((c / 60 + (b : ℚ)) / 60 + (a : ℚ)) - (-d)) from by push_cast; ring, abs_neg]
        linarith [hclose]
  · intro d hlo hhi str hstr
    rw [to_hourangle_sexagesimal] at hstr
    by_cases hd : 0 < d
    · rw [format_colon_pos (24 / 360) hd] at hstr
      obtain ⟨a, b, c, hparse, hfloat, hclose⟩ :=
        roundtrip_parse (24 / 360 * d) (by positivity) (by linarith) (Or.inl ⟨rfl, rfl⟩)
      obtain rfl : (⟨bodyChars (24 / 360 * d) ':' ':' 3⟩ : String) = str := by simpa using hstr
      have hfloat' : pyFloatList (bodyChars (24 / 360 * d) ':' ':' 3) = none := hfloat
      have hparse' : parseSexList (bodyChars (24 / 360 * d) ':' ':' 3) = some (1, a, b, c) :=
        hparse
      refine ⟨round6 (((1 : Int) : ℚ) * ((c / 60 + (b : ℚ)) / 60 + (a : ℚ)) / 24 * 360), ?_, ?_⟩
      · rw [hourangle_to_decimal_deg]
        simp only [parse_sexagesimal,
          show (⟨bodyChars (24 / 360 * d) ':' ':' 3⟩ : String).data =
            bodyChars (24 / 360 * d) ':' ':' 3 from rfl, hfloat', hparse']
      · refine round6_is_close ?_
        rw [show ((1 : Int) : ℚ) * ((c / 60 + (b : ℚ)) / 60 + (a : ℚ)) / 24 * 360 - d =
          15 * (((c / 60 + (b : ℚ)) / 60 + (a : ℚ)) - 24 / 360 * d) from by push_cast; ring,
          abs_mul, show |(15 : ℚ)| = 15 from by norm_num]
        linarith [hclose]
    · have hd0 : d = 0 := le_antisymm (not_lt.mp hd) hlo
      subst hd0
      rw [format_colon_nonpos (24 / 360) hd, mul_zero, neg_zero] at hstr
      obtain ⟨a, b, c, hparse, hfloat, hclose⟩ :=
        roundtrip_parse 0 le_rfl (by norm_num) (Or.inl ⟨rfl, rfl⟩)
      obtain rfl : (⟨bodyChars 0 ':' ':' 3⟩ : String) = str := by simpa using hstr
      have hfloat' : pyFloatList (bodyChars 0 ':' ':' 3) = none := hfloat
      have hparse' : parseSexList (bodyChars 0 ':' ':' 3) = some (1, a, b, c) := hparse
      refine ⟨round6 (((1 : Int) : ℚ) * ((c / 60 + (b : ℚ)) / 60 + (a : ℚ)) / 24 * 360), ?_, ?_⟩
      · rw [hourangle_to_decimal_deg]
        simp only [parse_sexagesimal, show (⟨bodyChars 0 ':' ':' 3⟩ : String).data =
          bodyChars 0 ':' ':' 3 from rfl, hfloat', hparse']
      · refine round6_is_close ?_
        rw [show ((1 : Int) : ℚ) * ((c / 60 + (b : ℚ)) / 60 + (a : ℚ)) / 24 * 360 - 0 =
          15 * (((c / 60 + (b : ℚ)) / 60 + (a : ℚ)) - 0) from by push_cast; ring,
          abs_mul, show |(15 : ℚ)| = 15 from by norm_num]
        linarith [hclose]

/-- Witness for C2 at the concrete inputs `d = 45.5` and `h = 180`. -/
theorem claim_C2_witness :
    (∃ v : ℚ, deg_to_decimal_deg "+45:30:00.000" = .ok (.fin v) ∧ |v - 91 / 2| ≤ 1 / 1000) ∧
    (∃ v : ℚ, hourangle_to_decimal_deg "12:00:00.000" = .ok (.fin v) ∧ |v - 180| ≤ 1 / 1000) := by
  have h5 : pyFormat06f 3 (0 : ℚ) = ['0', '0', '.', '0', '0', '0'] := by
    rw [pyFormat06f_three (by norm_num) (by norm_num)]
    norm_num [round_eq]
    decide
  constructor
  · refine claim_C2.1 (91 / 2) (by norm_num) (by norm_num) "+45:30:00.000" ?_
    rw [to_degminsec_sexagesimal, format_colon_pos 1 (by norm_num), one_mul]
    have h1 : pyInt (91 / 2 : ℚ) = 45 := by rw [pyInt_of_nonneg (by norm_num)]; norm_num
    have h2 : pyMod ((91 / 2 : ℚ) * 60) 60 = 30 := by rw [pyMod]; norm_num
    have h3 : pyInt (30 : ℚ) = 30 := by rw [pyInt_of_nonneg (by norm_num)]; norm_num
    have h4 : pyMod ((30 : ℚ) * 60) 60 = 0 := by rw [pyMod]; norm_num
    rw [bodyChars, h2, h4, h1, h3, h5]
    decide
  · refine claim_C2.2 180 (by norm_num) (by norm_num) "12:00:00.000" ?_
    rw [to_hourangle_sexagesimal, format_colon_pos (24 / 360) (by norm_num),
      show (24 / 360 : ℚ) * 180 = 12 from by norm_num]
    have h1 : pyInt (12 : ℚ) = 12 := by rw [pyInt_of_nonneg (by norm_num)]; norm_num
    have h2 : pyMod ((12 : ℚ) * 60) 60 = 0 := by rw [pyMod]; norm_num
    have h3 : pyInt (0 : ℚ) = 0 := by rw [pyInt_of_nonneg (by norm_num)]; norm_num
    have h4 : pyMod ((0 : ℚ) * 60) 60 = 0 := by rw [pyMod]; norm_num
    rw [bodyChars, h2, h4, h1, h3, h5]
    decide

/-! ### Ranges of the matcher output -/

lemma pDig_bound {cs : List Char} {d : Nat} {r : List Char} (h : pDig cs = some (d, r)) :
    d ≤ 9 := by
  cases cs with
  | nil => simp [pDig] at h
  | cons c cs' =>
    by_cases hc : isDig c
    · rw [pDig_cons hc] at h
      obtain ⟨rfl, rfl⟩ : digVal c = d ∧ cs' = r := by simpa using h
      exact digVal_le_of_isDig hc
    · rw [pDig_cons_not (by simpa using hc)] at h
      exact absurd h (by simp)

lemma pNum2_bound {cs : List Char} {n : Nat} {r : List Char} (h : pNum2 cs = some (n, r)) :
    n ≤ 99 := by
  rw [pNum2] at h
  cases h1 : pDig cs with
  | none => simp only [h1] at h; exact absurd h (by simp)
  | some p1 =>
    simp only [h1] at h
    obtain ⟨d1, r1⟩ := p1
    cases h2 : pDig r1 with
    | none => simp only [h2] at h; exact absurd h (by simp)
    | some p2 =>
      simp only [h2] at h
      obtain ⟨d2, r2⟩ := p2
      obtain ⟨rfl, rfl⟩ : d1 * 10 + d2 = n ∧ r2 = r := by simpa using h
      have hb1 := pDig_bound h1
      have hb2 := pDig_bound h2
      omega

lemma fracVal_nonneg (ds : List Char) : 0 ≤ fracVal ds := by
  induction ds with
  | nil => simp [fracVal]
  | cons c cs ih =>
    simp only [fracVal, List.foldr_cons] at ih ⊢
    positivity

lemma fracVal_lt_one {ds : List Char} (h : ∀ c ∈ ds, isDig c = true) : fracVal ds < 1 := by
  induction ds with
  | nil => simp [fracVal]
  | cons c cs ih =>
    have hc := digVal_le_of_isDig (h c (by simp))
    have hcs := ih (fun c hc => h c (by simp [hc]))
    have h0 := fracVal_nonneg cs
    simp only [fracVal, List.foldr_cons] at hcs h0 ⊢
    have h9 : (digVal c : ℚ) ≤ 9 := by exact_mod_cast hc
    linarith

lemma takeDigits_fst_digits (cs : List Char) : ∀ c ∈ (takeDigits cs).1, isDig c = true := by
  induction cs with
  | nil => simp [takeDigits]
  | cons c cs' ih =>
    by_cases hc : isDig c
    · simp only [takeDigits, hc, if_true]
      intro x hx
      rcases List.mem_cons.mp hx with rfl | hx'
      · exact hc
      · exact ih x hx'
    · simp [takeDigits, hc]

lemma pCrest_range {ip : Nat} {r2 : List Char} {v : ℚ} {r : List Char} (hle : ip ≤ 99)
    (h : pCrest (ip, r2) = some (v, r)) : 0 ≤ v ∧ v < 100 := by
  have hq : (ip : ℚ) ≤ 99 := by exact_mod_cast hle
  cases r2 with
  | nil =>
    obtain ⟨rfl, rfl⟩ : (ip : ℚ) = v ∧ ([] : List Char) = r := by simpa [pCrest] using h
    exact ⟨by positivity, by linarith⟩
  | cons c r3 =>
    by_cases hc : c = '.'
    · rw [pCrest, if_pos hc] at h
      obtain ⟨rfl, rfl⟩ : (ip : ℚ) + fracVal (takeDigits r3).1 = v ∧ (takeDigits r3).2 = r := by
        simpa using h
      have hf0 := fracVal_nonneg (takeDigits r3).1
      have hf1 := fracVal_lt_one (takeDigits_fst_digits r3)
      exact ⟨by positivity, by linarith⟩
    · rw [pCrest, if_neg hc] at h
      obtain ⟨rfl, rfl⟩ : (ip : ℚ) = v ∧ c :: r3 = r := by simpa using h
      exact ⟨by positivity, by linarith⟩

lemma pC_range {cs : List Char} {v : ℚ} {r : List Char} (h : pC cs = some (v, r)) :
    0 ≤ v ∧ v < 100 := by
  rw [pC] at h
  cases h1 : pDig cs with
  | none => simp only [h1] at h; exact absurd h (by simp)
  | some p1 =>
    simp only [h1] at h
    obtain ⟨d1, r1⟩ := p1
    have hb1 := pDig_bound h1
    cases h2 : pDig r1 with
    | none =>
      simp only [h2] at h
      exact pCrest_range (by omega) h
    | some p2 =>
      simp only [h2] at h
      obtain ⟨d2, r2⟩ := p2
      have hb2 := pDig_bound h2
      exact pCrest_range (by omega) h

lemma orElse_some_cases {α : Type} {a b : Option α} {v : α} (h : (a <|> b) = some v) :
    a = some v ∨ (a = none ∧ b = some v) := by
  cases a with
  | some x => left; simpa using h
  | none => right; exact ⟨rfl, by simpa using h⟩

lemma pBCwith_range {b' : Nat} {r0 : List Char} {b : Nat} {c : ℚ} {r : List Char}
    (hb : b' ≤ 99) (h : pBCwith b' r0 = some ((b, c), r)) :
    b ≤ 99 ∧ 0 ≤ c ∧ c < 100 := by
  rw [pBCwith] at h
  cases h1 : pSep isSep2 r0 with
  | none => simp only [h1] at h; exact absurd h (by simp)
  | some r1 =>
    simp only [h1] at h
    cases h2 : pC r1 with
    | none => simp only [h2] at h; exact absurd h (by simp)
    | some p =>
      simp only [h2] at h
      obtain ⟨cv, r2⟩ := p
      obtain ⟨⟨rfl, rfl⟩, rfl⟩ : (b' = b ∧ cv = c) ∧ r2 = r := by simpa using h
      exact ⟨hb, pC_range h2⟩

lemma pBC_range {cs : List Char} {b : Nat} {c : ℚ} {r : List Char}
    (h : pBC cs = some ((b, c), r)) : b ≤ 99 ∧ 0 ≤ c ∧ c < 100 := by
  rw [pBC] at h
  rcases orElse_some_cases h with h' | ⟨_, h'⟩
  · cases h1 : pNum2 cs with
    | none => simp only [h1] at h'; exact absurd h' (by simp)
    | some p =>
      simp only [h1] at h'
      obtain ⟨b', r'⟩ := p
      exact pBCwith_range (pNum2_bound h1) h'
  · cases h2 : pDig cs with
    | none => simp only [h2] at h'; exact absurd h' (by simp)
    | some p =>
      simp only [h2] at h'
      obtain ⟨b', r'⟩ := p
      exact pBCwith_range (le_trans (pDig_bound h2) (by norm_num)) h'

lemma pABCwith_range {a' : Nat} {r0 : List Char} {a b : Nat} {c : ℚ} {r : List Char}
    (ha : a' ≤ 99) (h : pABCwith a' r0 = some ((a, b, c), r)) :
    a ≤ 99 ∧ b ≤ 99 ∧ 0 ≤ c ∧ c < 100 := by
  rw [pABCwith] at h
  cases h1 : pSep isSep1 r0 with
  | none => simp only [h1] at h; exact absurd h (by simp)
  | some r1 =>
    simp only [h1] at h
    cases h2 : pBC r1 with
    | none => simp only [h2] at h; exact absurd h (by simp)
    | some p =>
      simp only [h2] at h
      obtain ⟨⟨b', cv⟩, r2⟩ := p
      obtain ⟨⟨rfl, rfl, rfl⟩, rfl⟩ : (a' = a ∧ b' = b ∧ cv = c) ∧ r2 = r := by simpa using h
      exact ⟨ha, pBC_range h2⟩

lemma pABC_range {cs : List Char} {a b : Nat} {c : ℚ} {r : List Char}
    (h : pABC cs = some ((a, b, c), r)) : a ≤ 99 ∧ b ≤ 99 ∧ 0 ≤ c ∧ c < 100 := by
  rw [pABC] at h
  rcases orElse_some_cases h with h' | ⟨_, h'⟩
  · cases h1 : pNum2 cs with
    | none => simp only [h1] at h'; exact absurd h' (by simp)
    | some p =>
      simp only [h1] at h'
      obtain ⟨a', r'⟩ := p
      exact pABCwith_range (pNum2_bound h1) h'
  · cases h2 : pDig cs with
    | none => simp only [h2] at h'; exact absurd h' (by simp)
    | some p =>
      simp only [h2] at h'
      obtain ⟨a', r'⟩ := p
      exact pABCwith_range (le_trans (pDig_bound h2) (by norm_num)) h'

lemma parseSexList_inv {cs : List Char} {sg : Int} {a b : Nat} {c : ℚ}
    (h : parseSexList cs = some (sg, a, b, c)) :
    (sg = 1 ∨ sg = -1) ∧ ∃ cs' r, pABC cs' = some ((a, b, c), r) := by
  rw [parseSexList.eq_def] at h
  have key : ∀ (s1 : Int × List Char), (s1.1 = 1 ∨ s1.1 = -1) →
      (match pABC s1.2 with
        | none => none
        | some ((a, b, c), _) => some (s1.1, a, b, c)) = some (sg, a, b, c) →
      (sg = 1 ∨ sg = -1) ∧ ∃ cs' r, pABC cs' = some ((a, b, c), r) := by
    intro s1 hs1 hm
    cases h2 : pABC s1.2 with
    | none => simp only [h2] at hm; exact absurd hm (by simp)
    | some p =>
      simp only [h2] at hm
      obtain ⟨⟨a', b', cv⟩, r2⟩ := p
      obtain ⟨rfl, rfl, rfl, rfl⟩ : s1.1 = sg ∧ a' = a ∧ b' = b ∧ cv = c := by simpa using hm
      exact ⟨hs1, s1.2, r2, h2⟩
  cases cs with
  | nil => exact key (1, []) (Or.inl rfl) h
  | cons c0 cs' =>
    simp only [] at h
    by_cases hp : c0 = '+'
    · rw [if_pos hp] at h
      exact key (1, cs') (Or.inl rfl) h
    · rw [if_neg hp] at h
      by_cases hm : c0 = '-'
      · rw [if_pos hm] at h
        exact key (-1, cs') (Or.inr rfl) h
      · rw [if_neg hm] at h
        exact key (1, c0 :: cs') (Or.inl rfl) h

/-- C5 (amended): every quadruple returned by `parse_sexagesimal` satisfies:
the sign is `+1` or `-1`, `A` is a non-negative integer (at most 99), `B` is an
integer in `[0, 99]` (not `[0, 59]`: the grammar accepts any two digits), and
`C` is a real number in `[0, 100)` (not `[0, 60)`). -/
theorem claim_C5 :
    ∀ (s : String) (sg : Int) (a b : ℕ) (c : ℚ),
      parse_sexagesimal s = some (sg, a, b, c) →
      (sg = 1 ∨ sg = -1) ∧ a ≤ 99 ∧ b ≤ 99 ∧ 0 ≤ c ∧ c < 100 := by
  intro s sg a b c h
  obtain ⟨hsg, cs', r, habc⟩ := parseSexList_inv h
  exact ⟨hsg, pABC_range habc⟩

/-- Counterexample to C5 as stated: `parse_sexagesimal("10:99:00")` returns
`B = 99 > 59`, and `parse_sexagesimal("10:20:99")` returns `C = 99 ≥ 60`. -/
theorem claim_C5_cex :
    parse_sexagesimal "10:99:00" = some (1, 10, 99, 0) ∧ ¬((99 : ℕ) ≤ 59) ∧
    parse_sexagesimal "10:20:99" = some (1, 10, 20, 99) ∧ ¬((99 : ℚ) < 60) := by
  refine ⟨?_, by omega, ?_, by norm_num⟩
  · simp [parse_sexagesimal, parseSexList, pABC, pABCwith, pBC, pBCwith, pNum2, pDig, pSep,
      pC, pCrest, isSep1, isSep2, isDig, digVal, takeDigits, fracVal]
  · simp [parse_sexagesimal, parseSexList, pABC, pABCwith, pBC, pBCwith, pNum2, pDig, pSep,
      pC, pCrest, isSep1, isSep2, isDig, digVal, takeDigits, fracVal]

/-- Witness for C5 at the concrete input `"10:20:30"`. -/
theorem claim_C5_witness :
    ((1 : Int) = 1 ∨ (1 : Int) = -1) ∧ (10 : ℕ) ≤ 99 ∧ (20 : ℕ) ≤ 99 ∧
    (0 : ℚ) ≤ 30 ∧ (30 : ℚ) < 100 := by
  have h : parse_sexagesimal "10:20:30" = some (1, 10, 20, 30) := by
    simp [parse_sexagesimal, parseSexList, pABC, pABCwith, pBC, pBCwith, pNum2, pDig, pSep,
      pC, pCrest, isSep1, isSep2, isDig, digVal, takeDigits, fracVal]
  exact claim_C5 "10:20:30" 1 10 20 30 h

/-- C10: the bare-number branch accepts every string accepted by Python float
conversion, not only bare decimal notation: `"nan"`, `"inf"`, `"-inf"`, `"1e3"`
and whitespace-padded numbers do not raise a parse error even though they match
no sexagesimal grammar, and non-finite inputs are returned as non-finite
values. -/
theorem claim_C10 :
    (∀ s : String, ∀ v : PyFloat, pyFloatList s.data = some v →
      ra_to_decimal s = .ok (pyRound6 v) ∧ dec_to_decimal s = .ok (pyRound6 v)) ∧
    ra_to_decimal "nan" = .ok .nan ∧
    ra_to_decimal "inf" = .ok .inf ∧
    dec_to_decimal "-inf" = .ok .ninf ∧
    ra_to_decimal "1e3" = .ok (.fin 1000) ∧
    ra_to_decimal " 12.5 " = .ok (.fin (25 / 2)) ∧
    parse_sexagesimal "nan" = none ∧
    parse_sexagesimal "inf" = none ∧
    parse_sexagesimal "-inf" = none ∧
    parse_sexagesimal "1e3" = none ∧
    parse_sexagesimal " 12.5 " = none := by
  refine ⟨?_, ?_, ?_, ?_, ?_, ?_, ?_, ?_, ?_, ?_, ?_⟩
  · intro s v hv
    constructor
    · simp [ra_to_decimal, hourangle_to_decimal_deg, hv]
    · simp [dec_to_decimal, deg_to_decimal_deg, hv]
  all_goals
    simp [ra_to_decimal, hourangle_to_decimal_deg, dec_to_decimal, deg_to_decimal_deg,
      pyFloatList, skipWs, matchLower, pyFloatCore, takeDigits, isDig, isPyWs, intVal,
      fracVal, digVal, parse_sexagesimal, parseSexList, pABC, pABCwith, pBC, pBCwith, pNum2,
      pDig, pSep, pC, pCrest, isSep1, isSep2, pyRound6, round6]
  · norm_num [round_eq]
  · norm_num [round_eq]

/-- Witness for C10 at the concrete input `" 12.5 "`. -/
theorem claim_C10_witness :
    ra_to_decimal " 12.5 " = .ok (pyRound6 (.fin (25 / 2))) ∧
    dec_to_decimal " 12.5 " = .ok (pyRound6 (.fin (25 / 2))) := by
  refine claim_C10.1 " 12.5 " (.fin (25 / 2)) ?_
  simp [pyFloatList, skipWs, matchLower, pyFloatCore, takeDigits, isDig, isPyWs, intVal,
    fracVal, digVal]
  norm_num

/-! ### Width and head-character facts about the formatter -/


lemma takeWhile_append_stop {p : Char → Bool} {xs : List Char} {y : Char} (ys : List Char)
    (hxs : ∀ x ∈ xs, p x = true) (hy : p y = false) :
    (xs ++ y :: ys).takeWhile p = xs := by
  induction xs with
  | nil => simp [List.takeWhile, hy]
  | cons x xs' ih =>
    simp only [List.cons_append, List.takeWhile, hxs x (by simp), List.append_eq]
    rw [ih (fun x hx => hxs x (by simp [hx]))]

lemma natDigits_len_le {n k : Nat} (h : n < 10 ^ k) (hk : 1 ≤ k) :
    (natDigits n).length ≤ k := by
  induction n using Nat.strong_induction_on generalizing k with
  | _ n ih =>
    by_cases h10 : n < 10
    · rw [natDigits_lt_ten h10]
      simpa using hk
    · have hk2 : 2 ≤ k := by
        by_contra hc
        have hk1 : k = 1 := by omega
        subst hk1
        simp at h
        omega
      have hrec : n / 10 < 10 ^ (k - 1) := by
        have h1 : 10 ^ k = 10 ^ (k - 1) * 10 := by
          rw [← pow_succ]
          congr 1
          omega
        rw [h1] at h
        omega
      have hlen := ih (n / 10) (by omega) hrec (by omega)
      show (natDigitsAux (n + 1) n).length ≤ k
      simp only [natDigitsAux]
      rw [if_neg (by omega),
        natDigitsAux_congr (n / 10) n (n / 10 + 1) (by omega) (by omega)]
      have h2 : natDigitsAux (n / 10 + 1) (n / 10) = natDigits (n / 10) := rfl
      rw [h2]
      simp only [List.length_append, List.length_singleton]
      omega

lemma leftPad_len {w : Nat} {c : Char} {l : List Char} (h : l.length ≤ w) :
    (leftPad w c l).length = w := by
  simp [leftPad]
  omega

lemma leftPad_all_dig {w : Nat} {l : List Char} (h : ∀ x ∈ l, isDig x = true) :
    ∀ x ∈ leftPad w '0' l, isDig x = true := by
  intro x hx
  simp only [leftPad, List.mem_append] at hx
  rcases hx with hx | hx
  · rw [List.eq_of_mem_replicate hx]
    decide
  · exact h x hx

/-- C4 (amended): for every precision `p > 0` and nonnegative seconds value,
the seconds field of `format_sexagesimal` has exactly `p` fractional digits
after the decimal point, but it is zero-padded to the hard-coded minimum total
width 6 (`'{:06.Pf}'`) — not to width `p + 3` as claimed; in particular
`format_sexagesimal(12.5, 1, sign=True, sep='dms', precision=1)` produces
`"+12d30m0000.0s"` (seconds field `"0000.0"` of width 6), not
`"+12d30m00.0s"`. -/
theorem claim_C4 :
    (∀ (q : ℚ) (prec : Nat), 0 ≤ q → 0 < prec →
      ((pyFormat06f prec q).reverse.takeWhile isDig).length = prec ∧
      (pyFormat06f prec q).length =
        max 6 ((natDigits ((round (q * 10 ^ prec)).natAbs / 10 ^ prec)).length + 1 + prec)) ∧
    format_sexagesimal (25 / 2) 1 true "dms" 1 = some "+12d30m0000.0s" := by
  constructor
  · intro q prec hq hprec
    have hN0 : 0 ≤ round (q * 10 ^ prec) := by
      rw [round_eq]
      refine Int.le_floor.mpr ?_
      push_cast
      positivity
    have hfr : (round (q * 10 ^ prec)).natAbs % 10 ^ prec < 10 ^ prec :=
      Nat.mod_lt _ (by positivity)
    have hfrlen : (natDigits ((round (q * 10 ^ prec)).natAbs % 10 ^ prec)).length ≤ prec := natDigits_len_le hfr hprec
    have hpadlen : (leftPad prec '0' (natDigits ((round (q * 10 ^ prec)).natAbs % 10 ^ prec))).length = prec :=
      leftPad_len hfrlen
    rw [pyFormat06f]
    rw [if_neg (by omega), if_neg (by omega)]
    constructor
    · rw [show (leftPad 6 '0'
          (natDigits ((round (q * 10 ^ prec)).natAbs / 10 ^ prec) ++
            '.' :: leftPad prec '0' (natDigits ((round (q * 10 ^ prec)).natAbs % 10 ^ prec)))).reverse =
          (leftPad prec '0' (natDigits ((round (q * 10 ^ prec)).natAbs % 10 ^ prec))).reverse ++ '.' ::
            ((natDigits ((round (q * 10 ^ prec)).natAbs / 10 ^ prec)).reverse ++
              List.replicate (6 - ((natDigits ((round (q * 10 ^ prec)).natAbs / 10 ^ prec)).length + 1 +
                (leftPad prec '0' (natDigits ((round (q * 10 ^ prec)).natAbs % 10 ^ prec))).length)) '0') from by
        simp [leftPad, List.reverse_append, List.length_append]
        omega]
      rw [takeWhile_append_stop _
        (by
          intro x hx
          rw [List.mem_reverse] at hx
          exact leftPad_all_dig (natDigits_all_dig _) x hx)
        (by decide)]
      rw [List.length_reverse]
      exact hpadlen
    · simp only [leftPad, List.length_append, List.length_cons, List.length_replicate,
        hpadlen]
      omega
  · unfold format_sexagesimal pyMod
    norm_num [pyInt, round_eq]
    constructor
    · decide
    · norm_num [pyFormat02d, pyFormat06f, round_eq]
      decide

/-- Counterexample to C4 as stated: at precision 1 the seconds field is
`"0000.0"` (width 6), not zero-padded to width `p + 3 = 4`: the output on the
claim's own example differs from the claimed `"+12d30m00.0s"`. -/
theorem claim_C4_cex :
    format_sexagesimal (25 / 2) 1 true "dms" 1 = some "+12d30m0000.0s" ∧
    ("+12d30m0000.0s" : String) ≠ "+12d30m00.0s" := by
  constructor
  · unfold format_sexagesimal pyMod
    norm_num [pyInt, round_eq]
    constructor
    · decide
    · norm_num [pyFormat02d, pyFormat06f, round_eq]
      decide
  · decide

/-- Witness for C4 at the concrete input `q = 0`, `prec = 1`. -/
theorem claim_C4_witness :
    ((pyFormat06f 1 0).reverse.takeWhile isDig).length = 1 ∧
    (pyFormat06f 1 0).length =
      max 6 ((natDigits ((round ((0 : ℚ) * 10 ^ 1)).natAbs / 10 ^ 1)).length + 1 + 1) :=
  claim_C4.1 0 1 (by norm_num) (by norm_num)

lemma head_append_of_head {l r : List Char} {c : Char} (h : l.head? = some c) :
    (l ++ r).head? = some c := by
  cases l with
  | nil => simp at h
  | cons x t => simpa using h

lemma head_pyFormat02d_nonneg {n : Int} (h : 0 ≤ n) :
    ∃ c, (pyFormat02d n).head? = some c ∧ isDig c = true := by
  rw [pyFormat02d, if_neg (by omega), leftPad]
  cases hnd : natDigits n.toNat with
  | nil => exact absurd hnd (natDigits_ne_nil _)
  | cons c t =>
    have hcdig : isDig c = true :=
      natDigits_all_dig n.toNat c (hnd ▸ List.mem_cons_self c t)
    cases hrep : 2 - (c :: t).length with
    | zero => exact ⟨c, by simp [hrep], hcdig⟩
    | succ k => exact ⟨'0', by simp [hrep, List.replicate_succ], by decide⟩

/-- C6: with sign display enabled, the formatted string begins with `'+'`
exactly when the input degrees are strictly positive and with `'-'` otherwise;
formatting exactly `0.0` with the sign shown yields a negative sign prefix. -/
theorem claim_C6 :
    (∀ (deg mult : ℚ) (sep : String) (prec : Nat), sep ≠ "" →
      ∃ rest : List Char,
        format_sexagesimal deg mult true sep prec =
          some ⟨(if 0 < deg then '+' else '-') :: rest⟩) ∧
    to_hourangle_sexagesimal 0 ":" true 3 = some "-00:00:00.000" ∧
    dec_to_sexagesimal 0 ":" 3 = some "-00:00:00.000" := by
  have h5 : pyFormat06f 3 (0 : ℚ) = ['0', '0', '.', '0', '0', '0'] := by
    rw [pyFormat06f_three (by norm_num) (by norm_num)]
    norm_num [round_eq]
    decide
  have h1 : pyInt (0 : ℚ) = 0 := by rw [pyInt_of_nonneg (by norm_num)]; norm_num
  have h2 : pyMod ((0 : ℚ) * 60) 60 = 0 := by rw [pyMod]; norm_num
  refine ⟨?_, ?_, ?_⟩
  · intro deg mult sep prec hsep
    have hlen : ¬sep.length = 0 := by
      intro h0
      apply hsep
      cases sep with
      | mk data =>
        simp only [String.length] at h0
        rw [List.length_eq_zero] at h0
        rw [h0]
    rw [format_sexagesimal, if_neg hlen]
    by_cases hd : 0 < deg
    · simp only [hd, if_true]
      exact ⟨_, rfl⟩
    · simp only [hd, if_false]
      exact ⟨_, rfl⟩
  · rw [to_hourangle_sexagesimal, format_colon_nonpos (24 / 360) (by norm_num), mul_zero,
      neg_zero, bodyChars, h2, h2, h1, h5]
    decide
  · rw [dec_to_sexagesimal, to_degminsec_sexagesimal, format_colon_nonpos 1 (by norm_num),
      mul_zero, neg_zero, bodyChars, h2, h2, h1, h5]
    decide

/-- Witness for C6 at the concrete input `deg = 5`, `sep = ":"`. -/
theorem claim_C6_witness :
    ∃ rest : List Char,
      format_sexagesimal 5 1 true ":" 3 = some ⟨(if (0 : ℚ) < 5 then '+' else '-') :: rest⟩ :=
  claim_C6.1 5 1 ":" 3 (by decide)

/-- C7: separator normalization: a 1-character separator is duplicated and
behaves exactly like the 2-character separator made of the same character
twice; a 2-character separator is used as the two field separators with no
trailing separator; a 3-character separator additionally appends its third
character after the seconds field. -/
theorem claim_C7 :
    ∀ (deg mult : ℚ) (sgn : Bool) (prec : Nat),
      (∀ c : Char, format_sexagesimal deg mult sgn ⟨[c]⟩ prec =
        format_sexagesimal deg mult sgn ⟨[c, c]⟩ prec) ∧
      (∀ c0 c1 : Char, format_sexagesimal deg mult sgn ⟨[c0, c1]⟩ prec =
        some ⟨(if sgn then (if 0 < deg then ['+'] else ['-']) else []) ++
          bodyChars ((if 0 < deg then (1 : ℚ) else -1) * mult * deg) c0 c1 prec⟩) ∧
      (∀ c0 c1 c2 : Char, format_sexagesimal deg mult sgn ⟨[c0, c1, c2]⟩ prec =
        some ⟨(if sgn then (if 0 < deg then ['+'] else ['-']) else []) ++
          (bodyChars ((if 0 < deg then (1 : ℚ) else -1) * mult * deg) c0 c1 prec ++ [c2])⟩) := by
  intro deg mult sgn prec
  refine ⟨?_, ?_, ?_⟩ <;> intros <;> by_cases hd : 0 < deg <;>
    simp [format_sexagesimal, bodyChars, hd, String.length]

lemma format_eq_general (deg mult : ℚ) (sgn : Bool) (sep : String) (prec : Nat)
    (hs : ¬sep.length = 0) :
    format_sexagesimal deg mult sgn sep prec =
      some ⟨(if sgn then (if 0 < deg then ['+'] else ['-']) else []) ++
        (pyFormat02d (pyInt ((if 0 < deg then (1 : ℚ) else -1) * mult * deg)) ++
          ((if sep.length = 1 then sep.data ++ sep.data else sep.data).getD 0 ' ' ::
            (pyFormat02d (pyInt (pyMod ((if 0 < deg then (1 : ℚ) else -1) * mult * deg * 60)
                60)) ++
              ((if sep.length = 1 then sep.data ++ sep.data else sep.data).getD 1 ' ' ::
                (pyFormat06f prec
                    (pyMod (pyMod ((if 0 < deg then (1 : ℚ) else -1) * mult * deg * 60) 60 * 60)
                      60) ++
                  (if (if sep.length = 1 then sep.data ++ sep.data else sep.data).length = 3
                   then [(if sep.length = 1 then sep.data ++ sep.data else sep.data).getD 2 ' ']
                   else []))))))⟩ := by
  by_cases hd : 0 < deg <;> simp [format_sexagesimal, hd, hs]

/-- C9: `ra_to_sexagesimal` discards the sign of its input: for every real
`d`, separator and precision, `ra_to_sexagesimal(d) = ra_to_sexagesimal(-d)`,
and its output never begins with `'+'` or `'-'` (the hour-angle wrapper
hard-wires sign display off and the formatter works on the absolute value). -/
theorem claim_C9 :
    ∀ (d : ℚ) (sep : String) (prec : Nat),
      ra_to_sexagesimal d sep prec = ra_to_sexagesimal (-d) sep prec ∧
      ∀ out, ra_to_sexagesimal d sep prec = some out →
        out.data.head? ≠ some '+' ∧ out.data.head? ≠ some '-' := by
  intro d sep prec
  constructor
  · rw [ra_to_sexagesimal, ra_to_sexagesimal, to_hourangle_sexagesimal,
      to_hourangle_sexagesimal]
    by_cases hs : sep.length = 0
    · rw [format_sexagesimal, format_sexagesimal]
      simp [hs]
    · rw [format_eq_general d (24 / 360) false sep prec hs,
        format_eq_general (-d) (24 / 360) false sep prec hs]
      by_cases hd : 0 < d
      · have hd2 : ¬0 < -d := by linarith
        simp only [hd, hd2, if_true, if_false]
        rw [show (-1 : ℚ) * (24 / 360) * -d = (1 : ℚ) * (24 / 360) * d from by ring]
        simp
      · by_cases hd2 : 0 < -d
        · simp only [hd, hd2, if_true, if_false]
          rw [show (1 : ℚ) * (24 / 360) * -d = (-1 : ℚ) * (24 / 360) * d from by ring]
          simp
        · have hd0 : d = 0 := by linarith [not_lt.mp hd, not_lt.mp hd2]
          subst hd0
          simp
  · intro out hout
    rw [ra_to_sexagesimal, to_hourangle_sexagesimal] at hout
    by_cases hs : sep.length = 0
    · rw [format_sexagesimal, if_pos hs] at hout
      exact absurd hout (by simp)
    · rw [format_eq_general d (24 / 360) false sep prec hs] at hout
      have hh : (0 : ℚ) ≤ (if 0 < d then (1 : ℚ) else -1) * (24 / 360) * d := by
        by_cases hd : 0 < d
        · simp only [hd, if_true]
          nlinarith [hd.le]
        · simp only [hd, if_false]
          nlinarith [not_lt.mp hd]
      have hint : (0 : Int) ≤ pyInt ((if 0 < d then (1 : ℚ) else -1) * (24 / 360) * d) := by
        rw [pyInt_of_nonneg hh]
        exact Int.le_floor.mpr (by simpa using hh)
      obtain ⟨c, hc, hcd⟩ := head_pyFormat02d_nonneg hint
      obtain rfl : _ = out := Option.some.inj hout
      have hhead : (String.mk ((if false then (if 0 < d then ['+'] else ['-']) else []) ++
          (pyFormat02d (pyInt ((if 0 < d then (1 : ℚ) else -1) * (24 / 360) * d)) ++
            ((if sep.length = 1 then sep.data ++ sep.data else sep.data).getD 0 ' ' ::
              (pyFormat02d (pyInt (pyMod ((if 0 < d then (1 : ℚ) else -1) * (24 / 360) * d * 60)
                  60)) ++
                ((if sep.length = 1 then sep.data ++ sep.data else sep.data).getD 1 ' ' ::
                  (pyFormat06f prec
                      (pyMod
                        (pyMod ((if 0 < d then (1 : ℚ) else -1) * (24 / 360) * d * 60) 60 * 60)
                        60) ++
                    (if (if sep.length = 1 then sep.data ++ sep.data else sep.data).length = 3
                     then [(if sep.length = 1 then sep.data ++ sep.data
                        else sep.data).getD 2 ' ']
                     else [])))))))).data.head? = some c := by
        rw [if_neg (by decide : ¬((false : Bool) = true)), List.nil_append]
        exact head_append_of_head hc
      refine ⟨?_, ?_⟩
      · rw [hhead]
        intro hcontra
        obtain rfl : c = '+' := by simpa using hcontra
        exact not_plus_of_isDig hcd rfl
      · rw [hhead]
        intro hcontra
        obtain rfl : c = '-' := by simpa using hcontra
        exact not_minus_of_isDig hcd rfl

/-- Witness for C9 at the concrete input `d = 5`: the output
`"00:20:00.000"` does not begin with a sign character. -/
theorem claim_C9_witness :
    ("00:20:00.000" : String).data.head? ≠ some '+' ∧
    ("00:20:00.000" : String).data.head? ≠ some '-' := by
  refine (claim_C9 5 ":" 3).2 "00:20:00.000" ?_
  have h5 : pyFormat06f 3 (0 : ℚ) = ['0', '0', '.', '0', '0', '0'] := by
    rw [pyFormat06f_three (by norm_num) (by norm_num)]
    norm_num [round_eq]
    decide
  rw [ra_to_sexagesimal, to_hourangle_sexagesimal, format_colon_pos (24 / 360) (by norm_num),
    show (24 / 360 : ℚ) * 5 = 1 / 3 from by norm_num]
  have h1 : pyInt (1 / 3 : ℚ) = 0 := by rw [pyInt_of_nonneg (by norm_num)]; norm_num
  have h2 : pyMod ((1 / 3 : ℚ) * 60) 60 = 20 := by rw [pyMod]; norm_num
  have h3 : pyInt (20 : ℚ) = 20 := by rw [pyInt_of_nonneg (by norm_num)]; norm_num
  have h4 : pyMod ((20 : ℚ) * 60) 60 = 0 := by rw [pyMod]; norm_num
  rw [bodyChars, h2, h4, h1, h3, h5]
  decide

/-! ### Append stability of the anchored match (C8) -/

lemma pDig_append {cs : List Char} {d : Nat} {r : List Char} (t : List Char)
    (h : pDig cs = some (d, r)) : pDig (cs ++ t) = some (d, r ++ t) := by
  cases cs with
  | nil => simp [pDig] at h
  | cons c cs' =>
    by_cases hc : isDig c
    · rw [pDig_cons hc] at h
      obtain ⟨rfl, rfl⟩ : digVal c = d ∧ cs' = r := by simpa using h
      rw [List.cons_append, pDig_cons hc]
    · rw [pDig_cons_not (by simpa using hc)] at h
      exact absurd h (by simp)

lemma pDig_none_append {cs : List Char} (t : List Char) (hne : cs ≠ [])
    (h : pDig cs = none) : pDig (cs ++ t) = none := by
  cases cs with
  | nil => exact absurd rfl hne
  | cons c cs' =>
    by_cases hc : isDig c
    · rw [pDig_cons hc] at h
      exact absurd h (by simp)
    · rw [List.cons_append, pDig_cons_not (by simpa using hc)]

lemma pNum2_append {cs : List Char} {n : Nat} {r : List Char} (t : List Char)
    (h : pNum2 cs = some (n, r)) : pNum2 (cs ++ t) = some (n, r ++ t) := by
  rw [pNum2] at h
  cases h1 : pDig cs with
  | none => simp only [h1] at h; exact absurd h (by simp)
  | some p1 =>
    simp only [h1] at h
    obtain ⟨d1, r1⟩ := p1
    cases h2 : pDig r1 with
    | none => simp only [h2] at h; exact absurd h (by simp)
    | some p2 =>
      simp only [h2] at h
      obtain ⟨d2, r2⟩ := p2
      obtain ⟨rfl, rfl⟩ : d1 * 10 + d2 = n ∧ r2 = r := by simpa using h
      rw [pNum2, pDig_append t h1]
      simp only [pDig_append t h2]

lemma pSep_append {p : Char → Bool} {cs r : List Char} (t : List Char)
    (h : pSep p cs = some r) : pSep p (cs ++ t) = some (r ++ t) := by
  cases cs with
  | nil => simp [pSep] at h
  | cons c cs' =>
    by_cases hc : p c
    · rw [pSep_cons hc] at h
      obtain rfl : cs' = r := by simpa using h
      rw [List.cons_append, pSep_cons hc]
    · rw [pSep, if_neg (by simpa using hc)] at h
      exact absurd h (by simp)

lemma pSep_some_structure {p : Char → Bool} {cs r : List Char} (h : pSep p cs = some r) :
    ∃ c, cs = c :: r ∧ p c = true := by
  cases cs with
  | nil => simp [pSep] at h
  | cons c cs' =>
    by_cases hc : p c
    · rw [pSep_cons hc] at h
      obtain rfl : cs' = r := by simpa using h
      exact ⟨c, rfl, hc⟩
    · rw [pSep, if_neg (by simpa using hc)] at h
      exact absurd h (by simp)

lemma isSep2_not_digit {c : Char} (h : isSep2 c = true) : isDig c = false := by
  simp only [isSep2, Bool.or_eq_true, decide_eq_true_eq] at h
  rcases h with ((((rfl | rfl) | rfl) | rfl) | rfl) <;> decide

lemma isSep1_not_digit {c : Char} (h : isSep1 c = true) : isDig c = false := by
  simp only [isSep1, Bool.or_eq_true, decide_eq_true_eq] at h
  rcases h with ((((rfl | rfl) | rfl) | rfl) | rfl) <;> decide

lemma takeDigits_split (cs : List Char) :
    cs = (takeDigits cs).1 ++ (takeDigits cs).2 ∧
    (∀ c, (takeDigits cs).2.head? = some c → isDig c = false) := by
  induction cs with
  | nil => simp [takeDigits]
  | cons c cs' ih =>
    by_cases hc : isDig c
    · simp only [takeDigits, hc, if_true]
      exact ⟨by rw [List.cons_append, ← ih.1], ih.2⟩
    · simp only [takeDigits, hc, if_false]
      refine ⟨rfl, ?_⟩
      intro x hx
      obtain rfl : c = x := by simpa using hx
      simpa using hc

lemma takeDigits_append_ne {cs : List Char} (t : List Char)
    (hne : (takeDigits cs).2 ≠ []) :
    takeDigits (cs ++ t) = ((takeDigits cs).1, (takeDigits cs).2 ++ t) := by
  obtain ⟨hsplit, hhead⟩ := takeDigits_split cs
  have hdig := takeDigits_fst_digits cs
  conv_lhs => rw [hsplit]
  rw [List.append_assoc]
  cases hr : (takeDigits cs).2 with
  | nil => exact absurd hr hne
  | cons x xs =>
    rw [List.cons_append]
    refine takeDigits_exact hdig ?_
    intro c hc
    obtain rfl : x = c := by simpa using hc
    exact hhead x (by rw [hr]; rfl)

lemma takeDigits_append_nil {cs : List Char} (t : List Char)
    (hnil : (takeDigits cs).2 = []) (hgood : goodHead t) :
    takeDigits (cs ++ t) = ((takeDigits cs).1, t) := by
  obtain ⟨hsplit, _⟩ := takeDigits_split cs
  have hdig := takeDigits_fst_digits cs
  conv_lhs => rw [hsplit, hnil, List.append_nil]
  rw [takeDigits_exact hdig (fun c hc => (hgood c hc).1)]

lemma pCrest_total (ip : Nat) (r2 : List Char) : ∃ v r, pCrest (ip, r2) = some (v, r) := by
  cases r2 with
  | nil => exact ⟨ip, [], rfl⟩
  | cons c r3 =>
    by_cases hc : c = '.'
    · subst hc
      exact ⟨(ip : ℚ) + fracVal (takeDigits r3).1, (takeDigits r3).2, by simp [pCrest]⟩
    · exact ⟨ip, c :: r3, by simp [pCrest, hc]⟩

lemma pCrest_append {ip : Nat} {r2 : List Char} {v : ℚ} {r : List Char} (t : List Char)
    (h : pCrest (ip, r2) = some (v, r)) :
    (r ≠ [] → pCrest (ip, r2 ++ t) = some (v, r ++ t)) ∧
    (r = [] → goodHead t → pCrest (ip, r2 ++ t) = some (v, t)) := by
  cases r2 with
  | nil =>
    obtain ⟨rfl, rfl⟩ : (ip : ℚ) = v ∧ ([] : List Char) = r := by
      simpa [pCrest] using h
    refine ⟨fun hne => absurd rfl hne, fun _ hgood => ?_⟩
    rw [List.nil_append]
    cases t with
    | nil => rfl
    | cons c t' =>
      have hc : c ≠ '.' := (hgood c rfl).2
      simp [pCrest, hc]
  | cons c r3 =>
    by_cases hc : c = '.'
    · subst hc
      obtain ⟨hv, hr⟩ : (ip : ℚ) + fracVal (takeDigits r3).1 = v ∧ (takeDigits r3).2 = r := by
        simpa [pCrest] using h
      cases r with
      | nil =>
        refine ⟨fun hne => absurd rfl hne, fun _ hgood => ?_⟩
        rw [List.cons_append]
        simp only [pCrest, if_pos rfl, if_true, takeDigits_append_nil t hr hgood, hv]
      | cons x xs =>
        refine ⟨fun _ => ?_, fun hnil => absurd hnil (by simp)⟩
        rw [List.cons_append]
        have hne : (takeDigits r3).2 ≠ [] := by rw [hr]; simp
        simp only [pCrest, if_pos rfl, if_true, takeDigits_append_ne t hne, hr, hv]
    · obtain ⟨hv, hr⟩ : (ip : ℚ) = v ∧ c :: r3 = r := by
        simpa [pCrest, hc] using h
      refine ⟨fun _ => ?_, fun hnil => by rw [← hr] at hnil; exact absurd hnil (by simp)⟩
      rw [List.cons_append]
      simp [pCrest, hc, hv, ← hr]

lemma pC_some_append {cs : List Char} {v : ℚ} {r : List Char} (t : List Char)
    (h : pC cs = some (v, r)) : ∃ v' r', pC (cs ++ t) = some (v', r') := by
  rw [pC] at h
  cases h1 : pDig cs with
  | none => simp only [h1] at h; exact absurd h (by simp)
  | some p1 =>
    obtain ⟨d1, r1⟩ := p1
    have h1' := pDig_append t h1
    rw [pC]
    simp only [h1']
    cases h2 : pDig (r1 ++ t) with
    | none =>
      simp only [h2]
      exact pCrest_total d1 (r1 ++ t)
    | some p2 =>
      obtain ⟨d2, r2'⟩ := p2
      simp only [h2]
      exact pCrest_total _ _

lemma pC_append {cs : List Char} {v : ℚ} {r : List Char} (t : List Char)
    (h : pC cs = some (v, r)) :
    (r ≠ [] → pC (cs ++ t) = some (v, r ++ t)) ∧
    (r = [] → goodHead t → pC (cs ++ t) = some (v, t)) := by
  rw [pC] at h
  cases h1 : pDig cs with
  | none => simp only [h1] at h; exact absurd h (by simp)
  | some p1 =>
    simp only [h1] at h
    obtain ⟨d1, r1⟩ := p1
    have h1' := pDig_append t h1
    cases h2 : pDig r1 with
    | some p2 =>
      simp only [h2] at h
      obtain ⟨d2, r2'⟩ := p2
      have h2' := pDig_append t h2
      have hx := pCrest_append t h
      rw [pC]
      simp only [h1', h2']
      exact hx
    | none =>
      simp only [h2] at h
      rcases em (r1 = []) with hr1 | hr1
      · subst hr1
        obtain ⟨rfl, rfl⟩ : (d1 : ℚ) = v ∧ ([] : List Char) = r := by
          simpa [pCrest] using h
        refine ⟨fun hne => absurd rfl hne, fun _ hgood => ?_⟩
        have h1'' : pDig (cs ++ t) = some (d1, t) := by simpa using h1'
        rw [pC]
        simp only [h1'']
        have h3 : pDig t = none := by
          cases t with
          | nil => rfl
          | cons c t' => exact pDig_cons_not (hgood c rfl).1 t'
        simp only [h3]
        cases t with
        | nil => rfl
        | cons c t' =>
          have hc : c ≠ '.' := (hgood c rfl).2
          simp [pCrest, hc]
      · have h2' : pDig (r1 ++ t) = none := pDig_none_append t hr1 h2
        have hx := pCrest_append t h
        rw [pC]
        simp only [h1', h2']
        exact hx

lemma orElse_eq_of_left {α : Type} {a b : Option α} {v : α} (h : a = some v) :
    (a <|> b) = some v := by
  rw [h]
  rfl

lemma orElse_eq_of_right {α : Type} {a : Option α} (b : Option α) (h : a = none) :
    (a <|> b) = b := by
  rw [h]
  rfl

lemma pBCwith_some_append {b : Nat} {r0 : List Char} {b2 : Nat} {c : ℚ} {r : List Char}
    (t : List Char) (h : pBCwith b r0 = some ((b2, c), r)) :
    ∃ c' r', pBCwith b (r0 ++ t) = some ((b2, c'), r') := by
  rw [pBCwith] at h
  cases hs : pSep isSep2 r0 with
  | none => simp only [hs] at h; exact absurd h (by simp)
  | some r1 =>
    simp only [hs] at h
    cases hc : pC r1 with
    | none => simp only [hc] at h; exact absurd h (by simp)
    | some p =>
      simp only [hc] at h
      obtain ⟨cv, r2⟩ := p
      obtain ⟨⟨rfl, rfl⟩, rfl⟩ : (b = b2 ∧ cv = c) ∧ r2 = r := by simpa using h
      obtain ⟨v', r', hv⟩ := pC_some_append t hc
      rw [pBCwith, pSep_append t hs]
      simp only [hv]
      exact ⟨v', r', rfl⟩

lemma pBCwith_append {b : Nat} {r0 : List Char} {b2 : Nat} {c : ℚ} {r : List Char}
    (t : List Char) (h : pBCwith b r0 = some ((b2, c), r)) :
    (r ≠ [] → pBCwith b (r0 ++ t) = some ((b2, c), r ++ t)) ∧
    (r = [] → goodHead t → pBCwith b (r0 ++ t) = some ((b2, c), t)) := by
  rw [pBCwith] at h
  cases hs : pSep isSep2 r0 with
  | none => simp only [hs] at h; exact absurd h (by simp)
  | some r1 =>
    simp only [hs] at h
    cases hc : pC r1 with
    | none => simp only [hc] at h; exact absurd h (by simp)
    | some p =>
      simp only [hc] at h
      obtain ⟨cv, r2⟩ := p
      obtain ⟨⟨rfl, rfl⟩, rfl⟩ : (b = b2 ∧ cv = c) ∧ r2 = r := by simpa using h
      constructor
      · intro hne
        rw [pBCwith, pSep_append t hs]
        simp only [(pC_append t hc).1 hne]
      · intro hnil hgood
        rw [pBCwith, pSep_append t hs]
        simp only [(pC_append t hc).2 hnil hgood]

lemma pBCwith_sep_head {b : Nat} {r0 : List Char} {bc : Nat × ℚ} {r : List Char}
    (h : pBCwith b r0 = some (bc, r)) :
    ∃ c1 r1, r0 = c1 :: r1 ∧ isSep2 c1 = true := by
  rw [pBCwith] at h
  cases hs : pSep isSep2 r0 with
  | none => simp only [hs] at h; exact absurd h (by simp)
  | some r1 =>
    obtain ⟨c1, rfl, hc1⟩ := pSep_some_structure hs
    exact ⟨c1, r1, rfl, hc1⟩

lemma pBC_some_append {cs : List Char} {b : Nat} {c : ℚ} {r : List Char} (t : List Char)
    (h : pBC cs = some ((b, c), r)) :
    (∃ c' r', pBC (cs ++ t) = some ((b, c'), r')) ∧
    (r ≠ [] → pBC (cs ++ t) = some ((b, c), r ++ t)) ∧
    (r = [] → goodHead t → pBC (cs ++ t) = some ((b, c), t)) := by
  rcases orElse_some_cases h with h1 | ⟨h0, h1⟩
  · cases hn : pNum2 cs with
    | none => rw [hn] at h1; exact absurd h1 (by simp)
    | some p =>
      obtain ⟨b', r'⟩ := p
      rw [hn] at h1
      have hn' := pNum2_append t hn
      obtain ⟨c', r'', hv⟩ := pBCwith_some_append t h1
      have hx := pBCwith_append t h1
      refine ⟨⟨c', r'', ?_⟩, fun hne => ?_, fun hnil hgood => ?_⟩
      · rw [pBC]
        refine orElse_eq_of_left ?_
        simp only [hn', hv]
      · rw [pBC]
        refine orElse_eq_of_left ?_
        simp only [hn', hx.1 hne]
      · rw [pBC]
        refine orElse_eq_of_left ?_
        simp only [hn', hx.2 hnil hgood]
  · cases hd : pDig cs with
    | none => rw [hd] at h1; exact absurd h1 (by simp)
    | some p =>
      obtain ⟨b1, r1⟩ := p
      rw [hd] at h1
      obtain ⟨c1, r1', rfl, hc1⟩ := pBCwith_sep_head h1
      have hd' := pDig_append t hd
      have hdig1 : isDig c1 = false := isSep2_not_digit hc1
      have hnone : pNum2 (cs ++ t) = none := by
        rw [pNum2]
        simp only [hd', List.cons_append, pDig_cons_not hdig1]
      obtain ⟨c', r'', hv⟩ := pBCwith_some_append t h1
      have hx := pBCwith_append t h1
      refine ⟨⟨c', r'', ?_⟩, fun hne => ?_, fun hnil hgood => ?_⟩
      · rw [pBC, orElse_eq_of_right _ (by rw [hnone])]
        simp only [hd', hv]
      · rw [pBC, orElse_eq_of_right _ (by rw [hnone])]
        simp only [hd', hx.1 hne]
      · rw [pBC, orElse_eq_of_right _ (by rw [hnone])]
        simp only [hd', hx.2 hnil hgood]

lemma pABCwith_some_append {a : Nat} {r0 : List Char} {a2 b : Nat} {c : ℚ} {r : List Char}
    (t : List Char) (h : pABCwith a r0 = some ((a2, b, c), r)) :
    (∃ c' r', pABCwith a (r0 ++ t) = some ((a2, b, c'), r')) ∧
    (r ≠ [] → pABCwith a (r0 ++ t) = some ((a2, b, c), r ++ t)) ∧
    (r = [] → goodHead t → pABCwith a (r0 ++ t) = some ((a2, b, c), t)) := by
  rw [pABCwith] at h
  cases hs : pSep isSep1 r0 with
  | none => simp only [hs] at h; exact absurd h (by simp)
  | some r1 =>
    simp only [hs] at h
    cases hb : pBC r1 with
    | none => simp only [hb] at h; exact absurd h (by simp)
    | some p =>
      simp only [hb] at h
      obtain ⟨⟨b', cv⟩, r2⟩ := p
      obtain ⟨⟨rfl, rfl, rfl⟩, rfl⟩ : (a = a2 ∧ b' = b ∧ cv = c) ∧ r2 = r := by simpa using h
      have hx := pBC_some_append t hb
      obtain ⟨c', r'', hv⟩ := hx.1
      refine ⟨⟨c', r'', ?_⟩, fun hne => ?_, fun hnil hgood => ?_⟩
      · rw [pABCwith, pSep_append t hs]
        simp only [hv]
      · rw [pABCwith, pSep_append t hs]
        simp only [hx.2.1 hne]
      · rw [pABCwith, pSep_append t hs]
        simp only [hx.2.2 hnil hgood]

lemma pABCwith_sep_head {a : Nat} {r0 : List Char} {abc : Nat × Nat × ℚ} {r : List Char}
    (h : pABCwith a r0 = some (abc, r)) :
    ∃ c1 r1, r0 = c1 :: r1 ∧ isSep1 c1 = true := by
  rw [pABCwith] at h
  cases hs : pSep isSep1 r0 with
  | none => simp only [hs] at h; exact absurd h (by simp)
  | some r1 =>
    obtain ⟨c1, rfl, hc1⟩ := pSep_some_structure hs
    exact ⟨c1, r1, rfl, hc1⟩

lemma pABC_append {cs : List Char} {a b : Nat} {c : ℚ} {r : List Char} (t : List Char)
    (h : pABC cs = some ((a, b, c), r)) :
    (∃ c' r', pABC (cs ++ t) = some ((a, b, c'), r')) ∧
    (r ≠ [] → pABC (cs ++ t) = some ((a, b, c), r ++ t)) ∧
    (r = [] → goodHead t → pABC (cs ++ t) = some ((a, b, c), t)) := by
  rcases orElse_some_cases h with h1 | ⟨h0, h1⟩
  · cases hn : pNum2 cs with
    | none => rw [hn] at h1; exact absurd h1 (by simp)
    | some p =>
      obtain ⟨a', r'⟩ := p
      rw [hn] at h1
      have hn' := pNum2_append t hn
      have hx := pABCwith_some_append t h1
      obtain ⟨c', r'', hv⟩ := hx.1
      refine ⟨⟨c', r'', ?_⟩, fun hne => ?_, fun hnil hgood => ?_⟩
      · rw [pABC]
        refine orElse_eq_of_left ?_
        simp only [hn', hv]
      · rw [pABC]
        refine orElse_eq_of_left ?_
        simp only [hn', hx.2.1 hne]
      · rw [pABC]
        refine orElse_eq_of_left ?_
        simp only [hn', hx.2.2 hnil hgood]
  · cases hd : pDig cs with
    | none => rw [hd] at h1; exact absurd h1 (by simp)
    | some p =>
      obtain ⟨a1, r1⟩ := p
      rw [hd] at h1
      obtain ⟨c1, r1', rfl, hc1⟩ := pABCwith_sep_head h1
      have hd' := pDig_append t hd
      have hdig1 : isDig c1 = false := isSep1_not_digit hc1
      have hnone : pNum2 (cs ++ t) = none := by
        rw [pNum2]
        simp only [hd', List.cons_append, pDig_cons_not hdig1]
      have hx := pABCwith_some_append t h1
      obtain ⟨c', r'', hv⟩ := hx.1
      refine ⟨⟨c', r'', ?_⟩, fun hne => ?_, fun hnil hgood => ?_⟩
      · rw [pABC, orElse_eq_of_right _ (by rw [hnone])]
        simp only [hd', hv]
      · rw [pABC, orElse_eq_of_right _ (by rw [hnone])]
        simp only [hd', hx.2.1 hne]
      · rw [pABC, orElse_eq_of_right _ (by rw [hnone])]
        simp only [hd', hx.2.2 hnil hgood]

lemma parseSexList_default {c0 : Char} (hp : c0 ≠ '+') (hm : c0 ≠ '-') (r : List Char) :
    parseSexList (c0 :: r) =
      match pABC (c0 :: r) with
      | none => none
      | some ((a, b, c), _) => some ((1 : Int), a, b, c) := by
  rw [parseSexList]
  simp [hp, hm]

lemma parseSexList_append {cs : List Char} {sg : Int} {a b : Nat} {c : ℚ} (t : List Char)
    (h : parseSexList cs = some (sg, a, b, c)) :
    (∃ c', parseSexList (cs ++ t) = some (sg, a, b, c')) ∧
    (goodHead t → parseSexList (cs ++ t) = some (sg, a, b, c)) := by
  have key : ∀ (body : List Char) (sg' : Int),
      (match pABC body with
        | none => none
        | some ((x, y, z), _) => some (sg', x, y, z)) = some (sg, a, b, c) →
      (∃ c', (match pABC (body ++ t) with
        | none => none
        | some ((x, y, z), _) => some (sg', x, y, z)) = some (sg, a, b, c')) ∧
      (goodHead t → (match pABC (body ++ t) with
        | none => none
        | some ((x, y, z), _) => some (sg', x, y, z)) = some (sg, a, b, c)) := by
    intro body sg' hm
    cases h2 : pABC body with
    | none => simp only [h2] at hm; exact absurd hm (by simp)
    | some p =>
      simp only [h2] at hm
      obtain ⟨⟨a', b', cv⟩, r2⟩ := p
      obtain ⟨rfl, rfl, rfl, rfl⟩ : sg' = sg ∧ a' = a ∧ b' = b ∧ cv = c := by simpa using hm
      have hx := pABC_append t h2
      constructor
      · obtain ⟨c', r', hv⟩ := hx.1
        exact ⟨c', by simp only [hv]⟩
      · intro hgood
        rcases em (r2 = []) with hnil | hne
        · simp only [hx.2.2 hnil hgood]
        · simp only [hx.2.1 hne]
  cases cs with
  | nil => simp [parseSexList, pABC, pNum2, pDig] at h
  | cons c0 cs' =>
    by_cases hp : c0 = '+'
    · subst hp
      rw [parseSexList_plus] at h
      simp only [List.cons_append, parseSexList_plus]
      exact key cs' 1 h
    · by_cases hm : c0 = '-'
      · subst hm
        rw [parseSexList_minus] at h
        simp only [List.cons_append, parseSexList_minus]
        exact key cs' (-1) h
      · rw [parseSexList_default hp hm] at h
        have hres := key (c0 :: cs') 1 h
        simp only [List.cons_append] at hres
        simp only [List.cons_append, parseSexList_default hp hm]
        exact hres

/-- C8 (amended): sexagesimal parsing is anchored at the start of the string.
If `parse_sexagesimal` accepts `s` then it accepts every extension `s ++ t`,
with the same sign, `A` and `B` (only the seconds group can grow); it returns
the identical quadruple whenever the first character of `t` is neither a digit
nor `'.'` and so cannot extend the greedy seconds token; and failure on
`s ++ t` implies failure on the prefix `s`. The claim's stronger reading,
that the quadruple is the same for every suffix, is false: see the
counterexample. -/
theorem claim_C8 :
    (∀ (s t : String) (sg : Int) (a b : ℕ) (c : ℚ),
        parse_sexagesimal s = some (sg, a, b, c) →
        (∃ c' : ℚ, parse_sexagesimal (s ++ t) = some (sg, a, b, c')) ∧
        ((∀ hd, t.data.head? = some hd → isDig hd = false ∧ hd ≠ '.') →
          parse_sexagesimal (s ++ t) = some (sg, a, b, c))) ∧
    (∀ s t : String, parse_sexagesimal (s ++ t) = none → parse_sexagesimal s = none) := by
  constructor
  · intro s t sg a b c h
    have hx := parseSexList_append t.data (h : parseSexList s.data = some (sg, a, b, c))
    constructor
    · obtain ⟨c', hc'⟩ := hx.1
      refine ⟨c', ?_⟩
      rw [parse_sexagesimal, String.data_append]
      exact hc'
    · intro hgood
      rw [parse_sexagesimal, String.data_append]
      exact hx.2 hgood
  · intro s t hnone
    cases hq : parse_sexagesimal s with
    | none => rfl
    | some q =>
      obtain ⟨sg, a, b, c⟩ := q
      obtain ⟨c', hc'⟩ := (parseSexList_append t.data hq).1
      rw [parse_sexagesimal, String.data_append] at hnone
      rw [hnone] at hc'
      exact absurd hc' (by simp)

/-- Counterexample to C8 as stated: `"1:2:3"` is matched by the grammar, yet
appending the suffix `"4"` changes the returned quadruple, because the digit
extends the seconds token: `C` becomes `34` instead of `3`. -/
theorem claim_C8_cex :
    parse_sexagesimal "1:2:3" = some (1, 1, 2, 3) ∧
    "1:2:3" ++ "4" = "1:2:34" ∧
    parse_sexagesimal "1:2:34" = some (1, 1, 2, 34) ∧ ((34 : ℚ) ≠ 3) := by
  refine ⟨?_, rfl, ?_, by norm_num⟩
  · simp [parse_sexagesimal, parseSexList, pABC, pABCwith, pBC, pBCwith, pNum2, pDig, pSep,
      pC, pCrest, isSep1, isSep2, isDig, digVal, takeDigits, fracVal]
  · simp [parse_sexagesimal, parseSexList, pABC, pABCwith, pBC, pBCwith, pNum2, pDig, pSep,
      pC, pCrest, isSep1, isSep2, isDig, digVal, takeDigits, fracVal]

/-- Witness for C8 at `s = "1:2:3"`, `t = "x7"`: the extension parses to the
same quadruple since `'x'` is neither a digit nor a dot. -/
theorem claim_C8_witness :
    parse_sexagesimal ("1:2:3" ++ "x7") = some (1, 1, 2, 3) := by
  have h : parse_sexagesimal "1:2:3" = some (1, 1, 2, 3) := by
    simp [parse_sexagesimal, parseSexList, pABC, pABCwith, pBC, pBCwith, pNum2, pDig, pSep,
      pC, pCrest, isSep1, isSep2, isDig, digVal, takeDigits, fracVal]
  refine (claim_C8.1 "1:2:3" "x7" 1 1 2 3 h).2 ?_
  intro hd hhd
  have hx : some 'x' = some hd := hhd
  obtain rfl : 'x' = hd := by injection hx
  exact ⟨rfl, by decide⟩

end Pyaraucaria
